import Mathlib

/-!
# getwind: a verification development

Shallow embedding of `getwind.c` (the Ultimeter 100 poller: `get_value`,
`get_data_header`, `main`) and of the serial helper library `lib/serial.c`
(`FindFD`, `SerialOpen`, `SerialWrite`, `SerialNonBlockRead`, `SerialBlockRead`,
`SerialClose`, `SerialFlowControl`, `SerialSetSpeed`, `SerialSetParam`).

Conventions of the embedding

* `unsigned char` values are natural numbers (below 256), buffers are lists of them and
  `buf[i]` is `buf.getD i 0`; every statement that depends on a buffer position says which
  positions the buffer holds.
* `int` is a 32-bit two's complement integer: values are carried in `Int`, and the bit
  operations `|`, `&`, `<<` go through the unsigned 32-bit pattern (`toU32`, `ofU32`).
* `float` and `double` are IEEE-754 binary32 and binary64 with round-to-nearest-even, each
  operation rounded to its C type; values are carried in `ℚ` and `fround p` rounds a
  rational to `p` significant bits.  The exponent range is not modelled (no overflow or
  subnormals occur for the magnitudes `main` handles).
* Calls to the operating system are recorded in a trace; what the system answers (the result
  of `open`, of `write`, the bytes arriving on the line) is an input of the model.
* Output on stdout (`printf`) is not modelled, apart from the diagnostics and the final report
  of `main`, which are events of its trace.
-/

namespace Getwind

/-! ## 32-bit `int` -/

/-- The unsigned 32-bit pattern of an `int`. -/
def toU32 (x : Int) : Nat := (x % 2 ^ 32).toNat

/-- The `int` whose two's complement pattern is `n` (taken modulo `2 ^ 32`). -/
def ofU32 (n : Nat) : Int :=
  if n % 2 ^ 32 < 2 ^ 31 then ((n % 2 ^ 32 : Nat) : Int) else ((n % 2 ^ 32 : Nat) : Int) - 2 ^ 32

/-- C `a | b` on `int`. -/
def int_or (a b : Int) : Int := ofU32 (toU32 a ||| toU32 b)

/-- C `a & b` on `int`. -/
def int_and (a b : Int) : Int := ofU32 (toU32 a &&& toU32 b)

/-- C `a << s` on `int`, for `s < 32`: the pattern is shifted and truncated to 32 bits. -/
def int_shl (a : Int) (s : Nat) : Int := ofU32 (toU32 a <<< s)

/-! ## `get_value` (getwind.c) -/

def SPEED_OFFSET : Nat := 0
def DIRECTION_OFFSET : Nat := 4
def TEMPERATURE_OFFSET : Nat := 8
def AVGSPEED_OFFSET : Nat := 44

/-- One iteration of the loop of `get_value`: the byte at `offset + i` is taken as a nibble
(minus 55 when above `0x39`, minus 48 otherwise) and or-ed into `ret` at bit `(3 - i) * 4`. -/
def get_value_step (buf : List Nat) (offset : Nat) (ret : Int) (i : Nat) : Int :=
  if buf.getD (offset + i) 0 > 0x39 then
    int_or ret (int_shl ((buf.getD (offset + i) 0 : Int) - 55) ((3 - i) * 4))
  else
    int_or ret (int_shl ((buf.getD (offset + i) 0 : Int) - 48) ((3 - i) * 4))

/-- The function `get_value(buf, offset)`: the loop `for (i = 0; i < 4; i++)` over the four
field bytes, starting from `ret = 0`. -/
def get_value (buf : List Nat) (offset : Nat) : Int :=
  (List.range 4).foldl (get_value_step buf offset) 0

/-- The digit encoding of the frame as the specification describes it: a nibble `d` is the
byte `0x30 + d` when `d < 10` and `0x37 + d` (the letters `A`..`F`) otherwise. -/
def encodeNibble (d : Nat) : Nat := if d < 10 then 0x30 + d else 0x37 + d

/-- A byte is a valid encoded digit: `'0'..'9'` or `'A'..'F'`. -/
def validDigit (b : Nat) : Prop := (0x30 ≤ b ∧ b ≤ 0x39) ∨ (0x41 ≤ b ∧ b ≤ 0x46)

instance (b : Nat) : Decidable (validDigit b) := by unfold validDigit; infer_instance

/-- The four bytes of the field at `offset` are present in the buffer and are valid digits. -/
def validField (buf : List Nat) (offset : Nat) : Prop :=
  ∀ i, i < 4 → ∃ b, buf[offset + i]? = some b ∧ validDigit b

/-! ## Floating point -/

/-- Number of binary digits of `n`, by halving; the first argument bounds the number of
halvings. -/
def bitLengthAux : Nat → Nat → Nat
  | 0, _ => 0
  | fuel + 1, n => if n = 0 then 0 else bitLengthAux fuel (n / 2) + 1

/-- Number of binary digits of `n` (`0` for `0`). -/
def bitLength (n : Nat) : Nat := bitLengthAux n n

/-- The binary exponent of a non-zero rational: the `e` with `2 ^ e ≤ |x| < 2 ^ (e + 1)`. -/
def ilog2 (x : ℚ) : ℤ :=
  if (2 : ℚ) ^ ((bitLength x.num.natAbs : ℤ) - (bitLength x.den : ℤ)) ≤ |x| then
    (bitLength x.num.natAbs : ℤ) - (bitLength x.den : ℤ)
  else (bitLength x.num.natAbs : ℤ) - (bitLength x.den : ℤ) - 1

/-- Round to the nearest integer, ties to the even one. -/
def roundHalfEven (x : ℚ) : ℤ :=
  if x - ⌊x⌋ < 1 / 2 then ⌊x⌋
  else if 1 / 2 < x - ⌊x⌋ then ⌊x⌋ + 1
  else if ⌊x⌋ % 2 = 0 then ⌊x⌋ else ⌊x⌋ + 1

/-- Round `x` to `p` significant binary digits, to nearest, ties to even. -/
def fround (p : ℕ) (x : ℚ) : ℚ :=
  if x = 0 then 0
  else (roundHalfEven (x / 2 ^ (ilog2 x - ((p : ℤ) - 1))) : ℚ) * 2 ^ (ilog2 x - ((p : ℤ) - 1))

/-- Rounding to `float` (binary32, 24 significant bits). -/
def to_float (x : ℚ) : ℚ := fround 24 x

/-- Rounding to `double` (binary64, 53 significant bits). -/
def to_double (x : ℚ) : ℚ := fround 53 x

/-- The conversion `(int) x` of a `double`: truncation toward zero. -/
def truncate (x : ℚ) : ℤ := if 0 ≤ x then ⌊x⌋ else ⌈x⌉

/-- The speed computation of `main`, lines 139-141 (and 147-149 for the average):
`speed = (float) raw; speed = speed / 10; speed = speed / 3.6;`.  The first division is a
`float` division, the second a `double` division by the `double` constant `3.6` whose result
is stored in a `float`. -/
def speed_of (raw : Int) : ℚ :=
  to_float (to_double (to_float (to_float (raw : ℚ) / to_float 10) / to_double (36 / 10)))

/-- The direction computation of `main`, line 143: `(int)((360.0/255.0) * direction)`, in
`double`. -/
def direction_of (d : Int) : Int :=
  truncate (to_double (to_double (to_double 360 / to_double 255) * to_double (d : ℚ)))

/-- The temperature computation of `main`, lines 144-146: `temperature = (float) raw;
temperature = temperature / 10; temperature = (temperature - 32) * 5 / 9;`, every operation
in `float`. -/
def temperature_of (raw : Int) : ℚ :=
  to_float (to_float (to_float (to_float (to_float (raw : ℚ) / to_float 10) - to_float 32)
    * to_float 5) / to_float 9)

/-! ## The serial line as seen through blocking reads -/

/-- What the next blocking `read` on the line finds: a chunk of bytes that has arrived (the
read returns as many of them as it asked for, at most; an empty chunk is a read that returns
0), or an error (the read returns -1 and stores nothing). -/
inductive ReadEv where
  | data (bytes : List Nat)
  | err
deriving DecidableEq, Repr

/-- The future of the line: the chunks and errors the successive reads will meet. -/
abbrev Line := List ReadEv

/-- The bytes still to come on a line. -/
def line_bytes : Line → List Nat
  | [] => []
  | ReadEv.data bs :: rest => bs ++ line_bytes rest
  | ReadEv.err :: rest => line_bytes rest

/-- Every read on the line succeeds with at least one byte. -/
def all_reads_succeed (line : Line) : Prop :=
  ∀ ev, ev ∈ line → ∃ b bs, ev = ReadEv.data (b :: bs)

/-- A bound on the number of reads a line can serve. -/
def line_size : Line → Nat
  | [] => 0
  | ReadEv.data bs :: rest => bs.length + 1 + line_size rest
  | ReadEv.err :: rest => 1 + line_size rest

/-- The blocking `read(fd, buf, len)` of an open port (`VMIN = 1`, `VTIME = 0`): result,
bytes stored at the start of the buffer, and the line afterwards.  `none`: nothing arrives
any more and the read never returns. -/
def os_read (line : Line) (len : Nat) : Option (Int × List Nat × Line) :=
  match line with
  | [] => none
  | ReadEv.err :: rest => some (-1, [], rest)
  | ReadEv.data bs :: rest =>
    some (((bs.take len).length : Int), bs.take len,
      if bs.drop len = [] then rest else ReadEv.data (bs.drop len) :: rest)

/-- The buffer after a read has stored `bytes` at its start. -/
def store (buf : List Nat) (bytes : List Nat) : List Nat := bytes ++ buf.drop bytes.length

/-! ## `get_data_header` (getwind.c) -/

/-- The loop `do { SerialBlockRead(fd, buf, 1); } while (buf[0] != '!');` with `b0` the
current content of `buf[0]`; the result of the read is not looked at.  The first argument
bounds the number of iterations. -/
def get_data_header_loop : Nat → Nat → Line → Option Line
  | 0, _, _ => none
  | fuel + 1, b0, line =>
    match os_read line 1 with
    | none => none
    | some (_, bytes, rest) =>
      if (store [b0] bytes).getD 0 0 ≠ 0x21 then
        get_data_header_loop fuel ((store [b0] bytes).getD 0 0) rest
      else some rest

/-- The function `get_data_header(fd)` on an open port: `stale` is the content of its
uninitialised local `buf[0]`, the result is the line after the call, `none` when the call never
returns (the line dries up before a `'!'`).  Every iteration consumes a read event or a byte,
so `line_size line + 1` iterations are never exhausted. -/
def get_data_header (stale : Nat) (line : Line) : Option Line :=
  get_data_header_loop (line_size line + 1) stale line

/-! ## `main` (getwind.c) -/

def PORT3 : Nat := 2
def NO_FLOW_CONTROL : Nat := 0
def HW_FLOW_CONTROL : Nat := 1
def SW_FLOW_CONTROL : Nat := 2

/-- The diagnostics of `main`, one for each `printf("Error: ...")`. -/
inductive Diag where
  | SerialOpen
  | SerialSetSpeed
  | SerialSetParam
  | SerialFlowControl
  | SerialWrite
  | SerialBlockRead
  | EndOfDataIncorrect
deriving DecidableEq, Repr

/-- What `main` does, in order: the calls into the serial library, the diagnostics it prints,
the fields it decodes and the report it prints and hands to `system`. -/
inductive Event where
  | SerialOpen (port : Nat)
  | SerialSetSpeed (port speed : Nat)
  | SerialSetParam (port parity databits stopbit : Nat)
  | SerialFlowControl (port control : Nat)
  | SerialWrite (port : Nat) (str : List Nat) (len : Nat)
  | get_data_header
  | SerialBlockRead (port len : Nat)
  | SerialClose (port : Nat)
  | error (d : Diag)
  | get_value (offset : Nat)
  | report (speed : ℚ) (direction : Int) (temperature : ℚ) (avgspeed : ℚ)
deriving DecidableEq

/-- The inputs of one run of `main`: the results of the five set-up calls into the serial
library, the uninitialised content of the local buffers, and the future of the line. -/
structure Inputs where
  rOpen : Int
  rSpeed : Int
  rParam : Int
  rFlow : Int
  rWrite : Int
  stale1 : Nat
  stale2 : Nat
  buf0 : List Nat
  line : Line

/-- The five set-up calls of `main`, in order. -/
def setup_calls : List Event :=
  [Event.SerialOpen PORT3, Event.SerialSetSpeed PORT3 2400, Event.SerialSetParam PORT3 0 8 1,
    Event.SerialFlowControl PORT3 NO_FLOW_CONTROL, Event.SerialWrite PORT3 [0x3E, 0x49, 0x0D] 3]

/-- The results of the five set-up calls, in order. -/
def setup_results (inp : Inputs) : List Int :=
  [inp.rOpen, inp.rSpeed, inp.rParam, inp.rFlow, inp.rWrite]

/-- The diagnostic printed when the set-up call number `k` fails. -/
def setup_diag : List Diag :=
  [Diag.SerialOpen, Diag.SerialSetSpeed, Diag.SerialSetParam, Diag.SerialFlowControl,
    Diag.SerialWrite]

/-- The decoding of an accepted frame, lines 139-152 of `main`: the four `get_value` calls
and the report. -/
def decode (buf : List Nat) : List Event :=
  [Event.get_value SPEED_OFFSET, Event.get_value DIRECTION_OFFSET,
    Event.get_value TEMPERATURE_OFFSET, Event.get_value AVGSPEED_OFFSET,
    Event.report (speed_of (get_value buf SPEED_OFFSET))
      (direction_of (int_and (get_value buf DIRECTION_OFFSET) 0x00FFFFFF))
      (temperature_of (get_value buf TEMPERATURE_OFFSET))
      (speed_of (get_value buf AVGSPEED_OFFSET))]

/-- The part of `main` after the buffer has been filled, lines 123-156: the trailer test
`(buf[48] != 13) && (buf[49] != 10)`, then the end-of-logging command, the close, the decoding
and the report.  The result is the return value and the events. -/
def main_frame (buf : List Nat) : Int × List Event :=
  if buf.getD 48 0 ≠ 13 ∧ buf.getD 49 0 ≠ 10 then
    (-1, [Event.error Diag.EndOfDataIncorrect, Event.SerialClose PORT3])
  else
    (0, [Event.SerialWrite PORT3 [0x3E, 0x0D] 2, Event.SerialClose PORT3] ++ decode buf)

/-- The part of `main` after the set-up, lines 110-156: the two sentinel waits and the read
of 50 bytes, whose result is only tested for being negative.  `none`: a read never returns. -/
def main_poll (inp : Inputs) : Option (Int × List Event) :=
  match get_data_header inp.stale1 inp.line with
  | none => none
  | some l1 =>
    match get_data_header inp.stale2 l1 with
    | none => none
    | some l2 =>
      match os_read l2 50 with
      | none => none
      | some (ret, bytes, _) =>
        if ret < 0 then
          some (-1, [Event.get_data_header, Event.get_data_header,
            Event.SerialBlockRead PORT3 50, Event.error Diag.SerialBlockRead,
            Event.SerialClose PORT3])
        else
          some ((main_frame (store inp.buf0 bytes)).1,
            [Event.get_data_header, Event.get_data_header, Event.SerialBlockRead PORT3 50]
              ++ (main_frame (store inp.buf0 bytes)).2)

/-- The function `main`: return value and trace of one run, `none` when the run never returns.
Each set-up call is followed by `if (ret < 0) { printf(...); SerialClose(fd); return -1; }`. -/
def main (inp : Inputs) : Option (Int × List Event) :=
  if inp.rOpen < 0 then
    some (-1, setup_calls.take 1 ++ [Event.error Diag.SerialOpen, Event.SerialClose PORT3])
  else if inp.rSpeed < 0 then
    some (-1, setup_calls.take 2 ++ [Event.error Diag.SerialSetSpeed, Event.SerialClose PORT3])
  else if inp.rParam < 0 then
    some (-1, setup_calls.take 3 ++ [Event.error Diag.SerialSetParam, Event.SerialClose PORT3])
  else if inp.rFlow < 0 then
    some (-1, setup_calls.take 4 ++
      [Event.error Diag.SerialFlowControl, Event.SerialClose PORT3])
  else if inp.rWrite < 0 then
    some (-1, setup_calls.take 5 ++ [Event.error Diag.SerialWrite, Event.SerialClose PORT3])
  else
    match main_poll inp with
    | none => none
    | some (ret, events) => some (ret, setup_calls ++ events)

/-- An event of the decoding and reporting part of `main`. -/
def Event.isDecode : Event → Bool
  | Event.get_value _ => true
  | Event.report _ _ _ _ => true
  | _ => false

/-- An event that belongs to the steps after the set-up: sentinel wait, frame read, end
command, decoding, report. -/
def Event.isLaterStep : Event → Bool
  | Event.get_data_header => true
  | Event.SerialBlockRead _ _ => true
  | Event.get_value _ => true
  | Event.report _ _ _ _ => true
  | Event.SerialWrite _ str _ => decide (str = [0x3E, 0x0D])
  | _ => false

/-! ## The serial library (lib/serial.c, lib/serial.h) -/

def MAX_PORT_NUM : Nat := 8
def SERIAL_OK : Int := 0
def SERIAL_ERROR_FD : Int := -1
def SERIAL_ERROR_OPEN : Int := -2
def SERIAL_PARAMETER_ERROR : Int := -3

/-! The constants of `<termios.h>` that the library uses, with their Linux values. -/

def B9600 : Nat := 0o15
def CS5 : Nat := 0
def CS6 : Nat := 0o20
def CS7 : Nat := 0o40
def CS8 : Nat := 0o60
def CSIZE : Nat := 0o60
def CSTOPB : Nat := 0o100
def CREAD : Nat := 0o200
def PARENB : Nat := 0o400
def PARODD : Nat := 0o1000
def CLOCAL : Nat := 0o4000
def CRTSCTS : Nat := 0o20000000000
def INPCK : Nat := 0o20
def IXON : Nat := 0o2000
def IXANY : Nat := 0o4000
def IXOFF : Nat := 0o10000
def VTIME : Nat := 5
def VMIN : Nat := 6
def NCCS : Nat := 32

/-- A `struct termios`: the four flag words (unsigned 32-bit), the control characters and the
two line rates. -/
structure Termios where
  c_iflag : Nat
  c_oflag : Nat
  c_cflag : Nat
  c_lflag : Nat
  c_cc : List Nat
  c_ispeed : Nat
  c_ospeed : Nat
deriving DecidableEq, Repr

/-- C `flags &= ~mask` on an unsigned 32-bit flag word. -/
def clear_bits (flags mask : Nat) : Nat := flags &&& (2 ^ 32 - 1 - mask % 2 ^ 32)

/-- C `flags |= mask` on an unsigned 32-bit flag word. -/
def set_bits (flags mask : Nat) : Nat := (flags ||| mask) % 2 ^ 32

/-- The libc call `cfsetispeed(&t, speed)`, which is not part of the repository: it records
the input rate. -/
def cfsetispeed (t : Termios) (speed : Nat) : Termios := { t with c_ispeed := speed }

/-- The libc call `cfsetospeed(&t, speed)`, which is not part of the repository: it records
the output rate. -/
def cfsetospeed (t : Termios) (speed : Nat) : Termios := { t with c_ospeed := speed }

/-- The static data of serial.c: `fd_map`, `oldtio` and `newtio`, one entry per port. -/
structure SerialState where
  fd_map : List Int
  oldtio : List Termios
  newtio : List Termios
deriving DecidableEq

/-- A `struct termios` after `bzero`. -/
def zero_termios : Termios :=
  { c_iflag := 0, c_oflag := 0, c_cflag := 0, c_lflag := 0, c_cc := List.replicate NCCS 0,
    c_ispeed := 0, c_ospeed := 0 }

/-- The state at program start: `fd_map` is `{-1, ..., -1}`, the two static `termios` arrays
are zero-initialised. -/
def initial_state : SerialState :=
  { fd_map := List.replicate MAX_PORT_NUM (-1),
    oldtio := List.replicate MAX_PORT_NUM zero_termios,
    newtio := List.replicate MAX_PORT_NUM zero_termios }

/-- The calls a library function makes to the operating system. -/
inductive Sys where
  | os_open (port : Nat)
  | tcgetattr (fd : Int)
  | tcflush (fd : Int)
  | tcsetattr (fd : Int) (t : Termios)
  | write (fd : Int) (str : List Nat) (len : Nat)
  | fcntl_nonblocking (fd : Int)
  | fcntl_blocking (fd : Int)
  | read (fd : Int) (len : Nat)
  | close (fd : Int)
deriving DecidableEq

/-- The result of a library call: the value it returns, the state it leaves and the system
calls it made. -/
structure Outcome where
  ret : Int
  state : SerialState
  sys : List Sys
deriving DecidableEq

/-- The function `FindFD(port)`. -/
def FindFD (s : SerialState) (port : Nat) : Int :=
  if s.fd_map.getD port (-1) = -1 then SERIAL_ERROR_FD else s.fd_map.getD port (-1)

/-- The `termios` settings `SerialOpen` builds: cleared, `B9600|CS8|CREAD|CLOCAL`, `VTIME = 0`
and `VMIN = 1`. -/
def open_termios : Termios :=
  { zero_termios with
    c_iflag := 0, c_oflag := 0,
    c_cflag := B9600 ||| CS8 ||| CREAD ||| CLOCAL,
    c_lflag := 0,
    c_cc := (zero_termios.c_cc.set VTIME 0).set VMIN 1 }

/-- The function `SerialOpen(port)`.  `os_fd` is what `open("/dev/ttyM<port>")` returns when
it is called and `os_tio` the settings `tcgetattr` reports for the device. -/
def SerialOpen (s : SerialState) (port : Nat) (os_fd : Int) (os_tio : Termios) : Outcome :=
  if s.fd_map.getD port (-1) ≠ -1 then
    { ret := SERIAL_ERROR_OPEN, state := s, sys := [] }
  else if os_fd < 0 then
    { ret := SERIAL_ERROR_OPEN, state := s, sys := [Sys.os_open port] }
  else
    { ret := os_fd,
      state := { fd_map := s.fd_map.set port os_fd,
                 oldtio := s.oldtio.set port os_tio,
                 newtio := s.newtio.set port open_termios },
      sys := [Sys.os_open port, Sys.tcgetattr os_fd, Sys.tcflush os_fd,
        Sys.tcsetattr os_fd open_termios] }

/-- The function `SerialWrite(port, str, len)`; `os_ret` is what `write` returns. -/
def SerialWrite (s : SerialState) (port : Nat) (str : List Nat) (len : Nat) (os_ret : Int) :
    Outcome :=
  if FindFD s port < 0 then { ret := FindFD s port, state := s, sys := [] }
  else { ret := os_ret, state := s, sys := [Sys.write (FindFD s port) str len] }

/-- The function `SerialNonBlockRead(port, buf, len)`; `os_ret` is what the non-blocking
`read` returns.  The bytes stored in the caller's buffer are not part of the library state. -/
def SerialNonBlockRead (s : SerialState) (port : Nat) (len : Nat) (os_ret : Int) : Outcome :=
  if FindFD s port < 0 then { ret := FindFD s port, state := s, sys := [] }
  else
    { ret := os_ret, state := s,
      sys := [Sys.fcntl_nonblocking (FindFD s port), Sys.read (FindFD s port) len] }

/-- The function `SerialBlockRead(port, buf, len)`; `os_ret` is what the blocking `read`
returns. -/
def SerialBlockRead (s : SerialState) (port : Nat) (len : Nat) (os_ret : Int) : Outcome :=
  if FindFD s port < 0 then { ret := FindFD s port, state := s, sys := [] }
  else
    { ret := os_ret, state := s,
      sys := [Sys.fcntl_blocking (FindFD s port), Sys.read (FindFD s port) len] }

/-- The function `SerialClose(port)`. -/
def SerialClose (s : SerialState) (port : Nat) : Outcome :=
  if FindFD s port < 0 then { ret := FindFD s port, state := s, sys := [] }
  else
    { ret := SERIAL_OK,
      state := { s with fd_map := s.fd_map.set port (-1) },
      sys := [Sys.tcsetattr (FindFD s port) (s.oldtio.getD port zero_termios),
        Sys.close (FindFD s port)] }

/-- The settings `SerialFlowControl` stores for a valid `control`, `none` for another one. -/
def flow_termios (t : Termios) (control : Int) : Option Termios :=
  if control = 0 then
    some { t with c_cflag := clear_bits t.c_cflag CRTSCTS,
                  c_iflag := clear_bits t.c_iflag (IXON ||| IXOFF ||| IXANY) }
  else if control = 1 then some { t with c_cflag := set_bits t.c_cflag CRTSCTS }
  else if control = 2 then some { t with c_iflag := set_bits t.c_iflag (IXON ||| IXOFF ||| IXANY) }
  else none

/-- The function `SerialFlowControl(port, control)`. -/
def SerialFlowControl (s : SerialState) (port : Nat) (control : Int) : Outcome :=
  if FindFD s port < 0 then { ret := FindFD s port, state := s, sys := [] }
  else
    match flow_termios (s.newtio.getD port zero_termios) control with
    | none => { ret := SERIAL_PARAMETER_ERROR, state := s, sys := [] }
    | some t =>
      { ret := SERIAL_OK, state := { s with newtio := s.newtio.set port t },
        sys := [Sys.tcflush (FindFD s port), Sys.tcsetattr (FindFD s port) t] }

/-- The table `speed_table1` of `SerialSetSpeed`. -/
def speed_table1 : List Nat :=
  [0, 50, 75, 110, 134, 150, 200, 300, 600, 1200, 1800, 2400, 4800, 9600, 19200, 38400, 57600,
    115200, 230400, 460800, 500000, 576000, 921600]

/-- The table `speed_table2` of `SerialSetSpeed`: `B0, B50, ..., B921600` with their Linux
values. -/
def speed_table2 : List Nat :=
  [0o0, 0o1, 0o2, 0o3, 0o4, 0o5, 0o6, 0o7, 0o10, 0o11, 0o12, 0o13, 0o14, 0o15, 0o16, 0o17,
    0o10001, 0o10002, 0o10003, 0o10004, 0o10005, 0o10006, 0o10007]

/-- The loop `for (i = 1; i < table_size; i++) if (speed_table1[i] >= speed) break;` from the
index `i` on, with `table_size = 23`; the first argument bounds the number of iterations. -/
def speed_loop (speed : Nat) : Nat → Nat → Nat
  | 0, i => i
  | fuel + 1, i =>
    if i < 23 then
      if speed_table1.getD i 0 ≥ speed then i else speed_loop speed fuel (i + 1)
    else i

/-- The index at which `SerialSetSpeed` reads `speed_table2`: the value of `i` after the loop,
which starts at `i = 1` and runs at most 22 times. -/
def speed_index (speed : Nat) : Nat := speed_loop speed 23 1

/-- The settings `SerialSetSpeed` stores for the rate constant `b`:
`cfsetispeed(&newtio[port], b); cfsetospeed(&newtio[port], b);`. -/
def speed_termios (s : SerialState) (port : Nat) (b : Nat) : Termios :=
  cfsetospeed (cfsetispeed (s.newtio.getD port zero_termios) b) b

/-- The function `SerialSetSpeed(port, speed)`, `speed` an `unsigned int`.  `none`: the index
is past the end of `speed_table2` and the read of the table is undefined. -/
def SerialSetSpeed (s : SerialState) (port : Nat) (speed : Nat) : Option Outcome :=
  if FindFD s port < 0 then some { ret := FindFD s port, state := s, sys := [] }
  else
    match speed_table2[speed_index speed]? with
    | none => none
    | some b =>
      some { ret := SERIAL_OK,
             state := { s with newtio := s.newtio.set port (speed_termios s port b) },
             sys := [Sys.tcsetattr (FindFD s port) (speed_termios s port b)] }

/-- The parity part of `SerialSetParam`. -/
def parity_termios (t : Termios) (parity : Int) : Termios :=
  if parity = 0 then
    { t with c_cflag := clear_bits t.c_cflag PARENB, c_iflag := clear_bits t.c_iflag INPCK }
  else if parity = 1 then
    { t with c_cflag := set_bits (set_bits t.c_cflag PARENB) PARODD,
             c_iflag := set_bits t.c_iflag INPCK }
  else if parity = 2 then
    { t with c_cflag := clear_bits (set_bits t.c_cflag PARENB) PARODD }
  else if parity = 3 then
    { t with c_cflag := clear_bits (clear_bits t.c_cflag PARENB) CSTOPB }
  else if parity = 4 then
    { t with c_cflag := clear_bits (set_bits t.c_cflag CSTOPB) PARENB,
             c_iflag := clear_bits t.c_iflag INPCK }
  else t

/-- The data-bits part of `SerialSetParam`. -/
def databits_termios (t : Termios) (databits : Int) : Termios :=
  if databits = 5 then { t with c_cflag := set_bits t.c_cflag CS5 }
  else if databits = 6 then { t with c_cflag := set_bits t.c_cflag CS6 }
  else if databits = 7 then { t with c_cflag := set_bits t.c_cflag CS7 }
  else if databits = 8 then { t with c_cflag := set_bits t.c_cflag CS8 }
  else t

/-- The stop-bit part of `SerialSetParam`. -/
def stopbit_termios (t : Termios) (stopbit : Int) : Termios :=
  if stopbit = 1 then { t with c_cflag := clear_bits t.c_cflag CSTOPB }
  else if stopbit = 2 then { t with c_cflag := set_bits t.c_cflag CSTOPB }
  else t

/-- The settings `SerialSetParam` stores: parity, then data bits, then stop bits, applied to
`newtio[port]`. -/
def param_termios (s : SerialState) (port : Nat) (parity databits stopbit : Int) : Termios :=
  stopbit_termios (databits_termios
    (parity_termios (s.newtio.getD port zero_termios) parity) databits) stopbit

/-- The function `SerialSetParam(port, parity, databits, stopbit)`. -/
def SerialSetParam (s : SerialState) (port : Nat) (parity databits stopbit : Int) : Outcome :=
  if FindFD s port < 0 then { ret := FindFD s port, state := s, sys := [] }
  else
    { ret := SERIAL_OK,
      state := { s with newtio := s.newtio.set port (param_termios s port parity databits stopbit) },
      sys := [Sys.tcflush (FindFD s port),
        Sys.tcsetattr (FindFD s port) (param_termios s port parity databits stopbit)] }

/-! ## Sample runs -/

/-- A 50-byte frame: speed `"0064"`, direction `"0080"`, temperature `"0140"`, 32 bytes `'0'`,
average speed `"0064"`, then the two trailer bytes. -/
def sample_frame (t48 t49 : Nat) : List Nat :=
  [0x30, 0x30, 0x36, 0x34, 0x30, 0x30, 0x38, 0x30, 0x30, 0x31, 0x34, 0x30]
    ++ List.replicate 32 0x30 ++ [0x30, 0x30, 0x36, 0x34, t48, t49]

/-- A run in which every set-up call succeeds and the line delivers `"!!"` and then a whole
frame whose trailer is carriage return, NUL instead of carriage return, line feed. -/
def bad_trailer_inputs : Inputs :=
  { rOpen := 3, rSpeed := 0, rParam := 0, rFlow := 0, rWrite := 3, stale1 := 0, stale2 := 0,
    buf0 := List.replicate 255 0,
    line := [ReadEv.data ([0x21, 0x21] ++ sample_frame 13 0)] }

/-- The buffer of `main` before the read in `short_read_inputs`: bytes 48 and 49 happen to
hold 13 and 10. -/
def stale_buffer : List Nat := List.replicate 48 0x30 ++ [13, 10] ++ List.replicate 205 0

/-- A run in which every set-up call succeeds, the line delivers `"!!"`, and the read of 50
bytes then returns with the 10 bytes that have arrived so far. -/
def short_read_inputs : Inputs :=
  { rOpen := 3, rSpeed := 0, rParam := 0, rFlow := 0, rWrite := 3, stale1 := 0, stale2 := 0,
    buf0 := stale_buffer,
    line := [ReadEv.data [0x21, 0x21], ReadEv.data ((sample_frame 13 10).take 10)] }

/-- A run in which `SerialOpen` and `SerialSetSpeed` succeed and `SerialSetParam` returns -1. -/
def param_failure_inputs : Inputs :=
  { rOpen := 3, rSpeed := 0, rParam := -1, rFlow := 0, rWrite := 3, stale1 := 0, stale2 := 0,
    buf0 := List.replicate 255 0, line := [] }

/-- A frame like `sample_frame 13 10` whose direction field is `"FF80"`: the direction 128 of
`sample_frame` with `FF` in the high byte of the 16-bit raw value. -/
def ff_direction_frame : List Nat :=
  [0x30, 0x30, 0x36, 0x34, 0x46, 0x46, 0x38, 0x30, 0x30, 0x31, 0x34, 0x30]
    ++ List.replicate 32 0x30 ++ [0x30, 0x30, 0x36, 0x34, 13, 10]

/-- A frame like `sample_frame 13 10` whose temperature field holds the bytes `0xFF`, `0x20`,
`':'`, `'0'`, none of the first three a valid digit. -/
def garbled_temperature_frame : List Nat :=
  [0x30, 0x30, 0x36, 0x34, 0x30, 0x30, 0x38, 0x30, 0xFF, 0x20, 0x3A, 0x30]
    ++ List.replicate 32 0x30 ++ [0x30, 0x30, 0x36, 0x34, 13, 10]

/-- A frame like `sample_frame 13 10` whose temperature field is `"0258"` (raw value 600,
60 degrees Fahrenheit). -/
def mild_frame : List Nat :=
  [0x30, 0x30, 0x36, 0x34, 0x30, 0x30, 0x38, 0x30, 0x30, 0x32, 0x35, 0x38]
    ++ List.replicate 32 0x30 ++ [0x30, 0x30, 0x36, 0x34, 13, 10]

/-- The state after `SerialOpen(PORT3)` at program start, when `open` returns the descriptor
3 and the device reports cleared settings. -/
def opened_state : SerialState := (SerialOpen initial_state PORT3 3 zero_termios).state

/-- The states of the static data that a program can reach: the state at program start, and
the state after a call of `SerialOpen`, `SerialClose`, `SerialFlowControl`, `SerialSetSpeed`
(when it does not read past its table) or `SerialSetParam` on a port number below
`MAX_PORT_NUM`, whatever the operating system answers.  The other functions of the library do
not write the static data. -/
inductive Reachable : SerialState → Prop where
  | start : Reachable initial_state
  | afterOpen (s : SerialState) (port : Nat) (os_fd : Int) (os_tio : Termios) :
      Reachable s → port < MAX_PORT_NUM → Reachable (SerialOpen s port os_fd os_tio).state
  | afterClose (s : SerialState) (port : Nat) :
      Reachable s → port < MAX_PORT_NUM → Reachable (SerialClose s port).state
  | afterFlowControl (s : SerialState) (port : Nat) (control : Int) :
      Reachable s → port < MAX_PORT_NUM → Reachable (SerialFlowControl s port control).state
  | afterSetSpeed (s : SerialState) (port speed : Nat) (o : Outcome) :
      Reachable s → port < MAX_PORT_NUM → SerialSetSpeed s port speed = some o →
      Reachable o.state
  | afterSetParam (s : SerialState) (port : Nat) (parity databits stopbit : Int) :
      Reachable s → port < MAX_PORT_NUM →
      Reachable (SerialSetParam s port parity databits stopbit).state

/-- The character-size field of the stored settings of a port: `newtio[port].c_cflag & CSIZE`. -/
def char_size (s : SerialState) (port : Nat) : Nat :=
  (s.newtio.getD port zero_termios).c_cflag &&& CSIZE

/-- Both bits of the character-size field of a flag word are set: the field holds `CS8`. -/
def has_cs8 (c : Nat) : Prop := c.testBit 4 = true ∧ c.testBit 5 = true

/-! ## Facts about the 32-bit operations -/

theorem toU32_natCast (n : Nat) (h : n < 2 ^ 32) : toU32 (n : Int) = n := by
  unfold toU32
  have : ((n : Int) % 2 ^ 32) = n := Int.emod_eq_of_lt (by positivity) (by exact_mod_cast h)
  rw [this]; simp

theorem ofU32_small (n : Nat) (h : n < 2 ^ 31) : ofU32 n = n := by
  unfold ofU32
  have h2 : n % 2 ^ 32 = n := Nat.mod_eq_of_lt (by omega)
  rw [h2, if_pos h]

theorem int_or_natCast (a b : Nat) (ha : a < 2 ^ 31) (hb : b < 2 ^ 31) :
    int_or (a : Int) (b : Int) = ((a ||| b : Nat) : Int) := by
  unfold int_or
  rw [toU32_natCast a (by omega), toU32_natCast b (by omega)]
  exact ofU32_small _ (Nat.or_lt_two_pow ha hb)

theorem int_and_natCast (a b : Nat) (ha : a < 2 ^ 31) (hb : b < 2 ^ 31) :
    int_and (a : Int) (b : Int) = ((a &&& b : Nat) : Int) := by
  unfold int_and
  rw [toU32_natCast a (by omega), toU32_natCast b (by omega)]
  exact ofU32_small _ (Nat.and_lt_two_pow a hb)

theorem int_shl_natCast (d s : Nat) (h : d * 2 ^ s < 2 ^ 31) :
    int_shl (d : Int) s = ((d * 2 ^ s : Nat) : Int) := by
  unfold int_shl
  have hd : d < 2 ^ 32 := by
    have : d * 1 ≤ d * 2 ^ s := Nat.mul_le_mul_left _ (Nat.one_le_two_pow)
    omega
  rw [toU32_natCast d hd, Nat.shiftLeft_eq]
  exact ofU32_small _ h

/-! ## The field decoder -/

theorem get_value_unfold (buf : List Nat) (off : Nat) :
    get_value buf off
      = get_value_step buf off (get_value_step buf off (get_value_step buf off
          (get_value_step buf off 0 0) 1) 2) 3 := rfl

theorem get_value_step_encoded (buf : List Nat) (off i d : Nat) (ret : Int) (hd : d < 16)
    (hb : buf.getD (off + i) 0 = encodeNibble d) :
    get_value_step buf off ret i = int_or ret (int_shl (d : Int) ((3 - i) * 4)) := by
  unfold get_value_step
  rw [hb]
  unfold encodeNibble
  by_cases h : d < 10
  · have h1 : ¬ (0x30 + d > 0x39) := by omega
    simp only [if_pos h, if_neg h1]
    congr 2
    push_cast; ring
  · have h1 : (0x37 + d > 0x39) := by omega
    simp only [if_neg h, if_pos h1]
    congr 2
    push_cast; ring

theorem or_nibbles (d3 d2 d1 d0 : Nat) (h3 : d3 < 16) (h2 : d2 < 16) (h1 : d1 < 16)
    (h0 : d0 < 16) :
    int_or (int_or (int_or (int_or 0 (int_shl (d3 : Int) 12)) (int_shl (d2 : Int) 8))
      (int_shl (d1 : Int) 4)) (int_shl (d0 : Int) 0)
      = ((d3 * 4096 + d2 * 256 + d1 * 16 + d0 : Nat) : Int) := by
  rw [int_shl_natCast d3 12 (by omega), int_shl_natCast d2 8 (by omega),
    int_shl_natCast d1 4 (by omega), int_shl_natCast d0 0 (by omega)]
  have e0 : (0 : Int) = ((0 : Nat) : Int) := rfl
  rw [e0, int_or_natCast 0 _ (by norm_num) (by omega)]
  have a3 : 0 ||| d3 * 2 ^ 12 = 2 ^ 12 * d3 := by rw [Nat.zero_or, Nat.mul_comm]
  rw [a3]
  have a2 : 2 ^ 12 * d3 ||| d2 * 2 ^ 8 = 2 ^ 8 * (16 * d3 + d2) := by
    have := Nat.mul_add_lt_is_or (show d2 * 2 ^ 8 < 2 ^ 12 by omega) d3
    rw [← this]; ring
  rw [int_or_natCast _ _ (by omega) (by omega), a2]
  have a1 : 2 ^ 8 * (16 * d3 + d2) ||| d1 * 2 ^ 4 = 2 ^ 4 * (256 * d3 + 16 * d2 + d1) := by
    have := Nat.mul_add_lt_is_or (show d1 * 2 ^ 4 < 2 ^ 8 by omega) (16 * d3 + d2)
    rw [← this]; ring
  rw [int_or_natCast _ _ (by omega) (by omega), a1]
  have a0 : 2 ^ 4 * (256 * d3 + 16 * d2 + d1) ||| d0 * 2 ^ 0
      = d3 * 4096 + d2 * 256 + d1 * 16 + d0 := by
    have := Nat.mul_add_lt_is_or (show d0 * 2 ^ 0 < 2 ^ 4 by omega) (256 * d3 + 16 * d2 + d1)
    rw [← this]; ring
  rw [int_or_natCast _ _ (by omega) (by omega), a0]

/-- The value of a field made of four encoded nibbles. -/
theorem get_value_nibbles (buf : List Nat) (off d3 d2 d1 d0 : Nat)
    (h3 : d3 < 16) (h2 : d2 < 16) (h1 : d1 < 16) (h0 : d0 < 16)
    (e3 : buf.getD (off + 0) 0 = encodeNibble d3) (e2 : buf.getD (off + 1) 0 = encodeNibble d2)
    (e1 : buf.getD (off + 2) 0 = encodeNibble d1) (e0 : buf.getD (off + 3) 0 = encodeNibble d0) :
    get_value buf off = ((d3 * 4096 + d2 * 256 + d1 * 16 + d0 : Nat) : Int) := by
  rw [get_value_unfold,
    get_value_step_encoded buf off 3 d0 _ h0 e0,
    get_value_step_encoded buf off 2 d1 _ h1 e1,
    get_value_step_encoded buf off 1 d2 _ h2 e2,
    get_value_step_encoded buf off 0 d3 _ h3 e3]
  exact or_nibbles d3 d2 d1 d0 h3 h2 h1 h0

theorem getD_of_getElem? (buf : List Nat) (i b : Nat) (h : buf[i]? = some b) :
    buf.getD i 0 = b := by
  rw [List.getD_eq_getElem?_getD, h]; rfl

/-- C1. Round trip of the field decoder: when the four bytes of the buffer at `off .. off + 3`
are the encoded nibbles of a 16-bit value `v`, most significant first, `get_value buf off`
returns `v`. -/
theorem get_value_roundtrip (v : Nat) (hv : v ≤ 65535) (buf : List Nat) (off : Nat)
    (henc : ∀ i, i < 4 → buf[off + i]? = some (encodeNibble (v / 16 ^ (3 - i) % 16))) :
    get_value buf off = (v : Int) := by
  have e3 : buf.getD (off + 0) 0 = encodeNibble (v / 4096 % 16) :=
    getD_of_getElem? _ _ _ (henc 0 (by norm_num))
  have e2 : buf.getD (off + 1) 0 = encodeNibble (v / 256 % 16) :=
    getD_of_getElem? _ _ _ (henc 1 (by norm_num))
  have e1 : buf.getD (off + 2) 0 = encodeNibble (v / 16 % 16) :=
    getD_of_getElem? _ _ _ (henc 2 (by norm_num))
  have e0 : buf.getD (off + 3) 0 = encodeNibble (v % 16) := by
    have := getD_of_getElem? _ _ _ (henc 3 (by norm_num))
    rw [this]; norm_num
  rw [get_value_nibbles buf off _ _ _ _ (Nat.mod_lt _ (by norm_num))
    (Nat.mod_lt _ (by norm_num)) (Nat.mod_lt _ (by norm_num)) (Nat.mod_lt _ (by norm_num))
    e3 e2 e1 e0]
  congr 1
  omega

/-- C1, at a concrete input: the bytes `"1A2F"` at offset 4 of a buffer decode to `0x1A2F`. -/
theorem get_value_roundtrip_witness :
    get_value [0, 0, 0, 0, 0x31, 0x41, 0x32, 0x46, 0] 4 = ((0x1A2F : Nat) : Int) :=
  get_value_roundtrip 0x1A2F (by decide) [0, 0, 0, 0, 0x31, 0x41, 0x32, 0x46, 0] 4
    (by decide)

/-! ## `main`: set-up, frame read and trailer test -/

theorem main_of_setup_ok (inp : Inputs) (h0 : 0 ≤ inp.rOpen) (h1 : 0 ≤ inp.rSpeed)
    (h2 : 0 ≤ inp.rParam) (h3 : 0 ≤ inp.rFlow) (h4 : 0 ≤ inp.rWrite) :
    main inp = match main_poll inp with
      | none => none
      | some (ret, events) => some (ret, setup_calls ++ events) := by
  unfold main
  rw [if_neg (not_lt.mpr h0), if_neg (not_lt.mpr h1), if_neg (not_lt.mpr h2),
    if_neg (not_lt.mpr h3), if_neg (not_lt.mpr h4)]

theorem main_poll_eq (inp : Inputs) (l1 l2 rest : Line) (n : Int) (bytes : List Nat)
    (hw1 : get_data_header inp.stale1 inp.line = some l1)
    (hw2 : get_data_header inp.stale2 l1 = some l2)
    (hread : os_read l2 50 = some (n, bytes, rest)) :
    main_poll inp =
      if n < 0 then
        some (-1, [Event.get_data_header, Event.get_data_header,
          Event.SerialBlockRead PORT3 50, Event.error Diag.SerialBlockRead,
          Event.SerialClose PORT3])
      else
        some ((main_frame (store inp.buf0 bytes)).1,
          [Event.get_data_header, Event.get_data_header, Event.SerialBlockRead PORT3 50]
            ++ (main_frame (store inp.buf0 bytes)).2) := by
  unfold main_poll
  simp only [hw1, hw2, hread]

theorem no_decode_in_abort (d : Diag) (pre : List Event)
    (hpre : ∀ e, e ∈ pre → e.isDecode = false) :
    ∀ e, e ∈ pre ++ [Event.error d, Event.SerialClose PORT3] → e.isDecode = false := by
  intro e he
  rcases List.mem_append.mp he with h | h
  · exact hpre e h
  · simp only [List.mem_cons, List.mem_singleton, List.not_mem_nil, or_false] at h
    rcases h with h | h <;> rw [h] <;> rfl

theorem no_decode_in_setup : ∀ e, e ∈ setup_calls ++ [Event.get_data_header,
    Event.get_data_header, Event.SerialBlockRead PORT3 50] → e.isDecode = false := by
  decide

/-- C2 (the code at the failing input). A complete 50-byte frame whose trailer is (13, 0), not
(13, 10), is accepted: the test `(buf[48] != 13) && (buf[49] != 10)` rejects only when both
bytes are wrong, so `main` sends the end command, closes the port, decodes the four fields,
reports, and returns 0. -/
theorem main_accepts_bad_trailer :
    (store bad_trailer_inputs.buf0 (sample_frame 13 0)).getD 48 0 = 13 ∧
    (store bad_trailer_inputs.buf0 (sample_frame 13 0)).getD 49 0 ≠ 10 ∧
    main bad_trailer_inputs
      = some (0, setup_calls ++ [Event.get_data_header, Event.get_data_header,
          Event.SerialBlockRead PORT3 50, Event.SerialWrite PORT3 [0x3E, 0x0D] 2,
          Event.SerialClose PORT3]
          ++ decode (store bad_trailer_inputs.buf0 (sample_frame 13 0))) := by
  refine ⟨by decide, by decide, ?_⟩
  rw [main_of_setup_ok _ (by decide) (by decide) (by decide) (by decide) (by decide),
    main_poll_eq bad_trailer_inputs [ReadEv.data ([0x21] ++ sample_frame 13 0)]
      [ReadEv.data (sample_frame 13 0)] [] 50 (sample_frame 13 0) (by rfl) (by rfl) (by rfl)]
  have ht : ¬ ((store bad_trailer_inputs.buf0 (sample_frame 13 0)).getD 48 0 ≠ 13 ∧
      (store bad_trailer_inputs.buf0 (sample_frame 13 0)).getD 49 0 ≠ 10) := by
    decide
  simp only [main_frame, if_neg ht]
  rfl

/-- C3 (counterexample). The read of 50 bytes returns 10, and `main` does not abort: bytes 48
and 49 of the buffer still hold what was there before the read, here 13 and 10, the trailer
test passes, the four fields are decoded and reported, and `main` returns 0. -/
theorem main_accepts_short_read :
    os_read [ReadEv.data ((sample_frame 13 10).take 10)] 50
      = some (10, (sample_frame 13 10).take 10, []) ∧
    main short_read_inputs
      = some (0, setup_calls ++ [Event.get_data_header, Event.get_data_header,
          Event.SerialBlockRead PORT3 50, Event.SerialWrite PORT3 [0x3E, 0x0D] 2,
          Event.SerialClose PORT3]
          ++ decode (store stale_buffer ((sample_frame 13 10).take 10))) := by
  refine ⟨by rfl, ?_⟩
  rw [main_of_setup_ok _ (by decide) (by decide) (by decide) (by decide) (by decide),
    main_poll_eq short_read_inputs [ReadEv.data [0x21], ReadEv.data ((sample_frame 13 10).take 10)]
      [ReadEv.data ((sample_frame 13 10).take 10)] [] 10 ((sample_frame 13 10).take 10)
      (by rfl) (by rfl) (by rfl)]
  have ht : ¬ ((store stale_buffer ((sample_frame 13 10).take 10)).getD 48 0 ≠ 13 ∧
      (store stale_buffer ((sample_frame 13 10).take 10)).getD 49 0 ≠ 10) := by
    decide
  have hb : short_read_inputs.buf0 = stale_buffer := rfl
  simp only [hb, main_frame, if_neg ht]
  rfl

/-- C3 (amended). In a run whose set-up calls succeed and whose two sentinel waits return, let
`n` be the result of the read of 50 bytes and `bytes` what it stored.  When `n < 0`, `main`
prints the diagnostic of `SerialBlockRead`, closes the port and returns -1, and nothing is
decoded or reported.  When `0 ≤ n` (also when `n < 50`) the read is not rejected: the buffer,
the bytes received followed by its previous content, goes to the trailer test.  When bytes 48
and 49 of that buffer are 13 and 10, `main` sends the end command, closes the port, decodes
the four fields, reports and returns 0; when neither is right, it prints the end-of-data
diagnostic, closes the port and returns -1 without decoding. -/
theorem main_frame_read (inp : Inputs) (h0 : 0 ≤ inp.rOpen) (h1 : 0 ≤ inp.rSpeed)
    (h2 : 0 ≤ inp.rParam) (h3 : 0 ≤ inp.rFlow) (h4 : 0 ≤ inp.rWrite)
    (l1 l2 rest : Line) (n : Int) (bytes : List Nat)
    (hw1 : get_data_header inp.stale1 inp.line = some l1)
    (hw2 : get_data_header inp.stale2 l1 = some l2)
    (hread : os_read l2 50 = some (n, bytes, rest)) :
    (n < 0 →
      main inp = some (-1, setup_calls ++ [Event.get_data_header, Event.get_data_header,
          Event.SerialBlockRead PORT3 50] ++
          [Event.error Diag.SerialBlockRead, Event.SerialClose PORT3]) ∧
      (∀ e, e ∈ setup_calls ++ [Event.get_data_header, Event.get_data_header,
          Event.SerialBlockRead PORT3 50] ++
          [Event.error Diag.SerialBlockRead, Event.SerialClose PORT3] →
        e.isDecode = false)) ∧
    (0 ≤ n → ((store inp.buf0 bytes).getD 48 0 = 13 ∧ (store inp.buf0 bytes).getD 49 0 = 10) →
      main inp = some (0, setup_calls ++ [Event.get_data_header, Event.get_data_header,
          Event.SerialBlockRead PORT3 50, Event.SerialWrite PORT3 [0x3E, 0x0D] 2,
          Event.SerialClose PORT3] ++ decode (store inp.buf0 bytes))) ∧
    (0 ≤ n → ((store inp.buf0 bytes).getD 48 0 ≠ 13 ∧ (store inp.buf0 bytes).getD 49 0 ≠ 10) →
      main inp = some (-1, setup_calls ++ [Event.get_data_header, Event.get_data_header,
          Event.SerialBlockRead PORT3 50] ++
          [Event.error Diag.EndOfDataIncorrect, Event.SerialClose PORT3]) ∧
      (∀ e, e ∈ setup_calls ++ [Event.get_data_header, Event.get_data_header,
          Event.SerialBlockRead PORT3 50] ++
          [Event.error Diag.EndOfDataIncorrect, Event.SerialClose PORT3] →
        e.isDecode = false)) := by
  rw [main_of_setup_ok inp h0 h1 h2 h3 h4, main_poll_eq inp l1 l2 rest n bytes hw1 hw2 hread]
  refine ⟨?_, ?_, ?_⟩
  · intro hn
    rw [if_pos hn]
    exact ⟨by simp, no_decode_in_abort _ _ no_decode_in_setup⟩
  · intro hn htr
    rw [if_neg (not_lt.mpr hn)]
    have hc : ¬ ((store inp.buf0 bytes).getD 48 0 ≠ 13 ∧ (store inp.buf0 bytes).getD 49 0 ≠ 10) :=
      fun hboth => hboth.1 htr.1
    simp only [main_frame, if_neg hc]
    simp
  · intro hn htr
    rw [if_neg (not_lt.mpr hn)]
    simp only [main_frame, if_pos htr]
    exact ⟨by simp, no_decode_in_abort _ _ no_decode_in_setup⟩

/-- C3 (amended), at a concrete run: `short_read_inputs`, in which the read returns 10 and
bytes 48 and 49 of the buffer are 13 and 10. -/
theorem main_frame_read_witness :
    main short_read_inputs = some (0, setup_calls ++ [Event.get_data_header,
      Event.get_data_header, Event.SerialBlockRead PORT3 50,
      Event.SerialWrite PORT3 [0x3E, 0x0D] 2, Event.SerialClose PORT3]
      ++ decode (store short_read_inputs.buf0 ((sample_frame 13 10).take 10))) :=
  (main_frame_read short_read_inputs (by decide) (by decide) (by decide) (by decide) (by decide)
    [ReadEv.data [0x21], ReadEv.data ((sample_frame 13 10).take 10)]
    [ReadEv.data ((sample_frame 13 10).take 10)] [] 10 ((sample_frame 13 10).take 10)
    (by rfl) (by rfl) (by rfl)).2.1 (by decide) (by decide)

/-- C9. Abort on the first set-up failure: when the set-up call number `k` (0 `SerialOpen`,
1 `SerialSetSpeed`, 2 `SerialSetParam`, 3 `SerialFlowControl`, 4 the handshake `SerialWrite`)
is the first one with a negative result, the run of `main` consists of the set-up calls up to
that one, the diagnostic and `SerialClose` on the port, and returns -1: no later set-up call,
no sentinel wait, no frame read, no end command, no decoding and no report. -/
theorem main_setup_failure (inp : Inputs) (k : Nat) (hk : k < 5)
    (hneg : (setup_results inp).getD k 0 < 0)
    (hfirst : ∀ j, j < k → 0 ≤ (setup_results inp).getD j 0) :
    main inp = some (-1, setup_calls.take (k + 1) ++
        [Event.error (setup_diag.getD k Diag.SerialOpen), Event.SerialClose PORT3]) ∧
      (∀ e, e ∈ setup_calls.take (k + 1) ++
        [Event.error (setup_diag.getD k Diag.SerialOpen), Event.SerialClose PORT3] →
          e.isLaterStep = false) := by
  have hall : ∀ e, e ∈ setup_calls ++ ([Event.error Diag.SerialOpen,
      Event.error Diag.SerialSetSpeed, Event.error Diag.SerialSetParam,
      Event.error Diag.SerialFlowControl, Event.error Diag.SerialWrite,
      Event.SerialClose PORT3] : List Event) → e.isLaterStep = false := by
    intro e he
    simp [setup_calls] at he
    rcases he with h | h | h | h | h | h | h | h | h | h | h <;> subst h <;>
      simp [Event.isLaterStep]
  constructor
  · interval_cases k
    · have h : inp.rOpen < 0 := hneg
      simp [main, h, setup_diag]
    · have h : inp.rSpeed < 0 := hneg
      have g0 : 0 ≤ inp.rOpen := hfirst 0 (by norm_num)
      simp [main, h, not_lt.mpr g0, setup_diag]
    · have h : inp.rParam < 0 := hneg
      have g0 : 0 ≤ inp.rOpen := hfirst 0 (by norm_num)
      have g1 : 0 ≤ inp.rSpeed := hfirst 1 (by norm_num)
      simp [main, h, not_lt.mpr g0, not_lt.mpr g1, setup_diag]
    · have h : inp.rFlow < 0 := hneg
      have g0 : 0 ≤ inp.rOpen := hfirst 0 (by norm_num)
      have g1 : 0 ≤ inp.rSpeed := hfirst 1 (by norm_num)
      have g2 : 0 ≤ inp.rParam := hfirst 2 (by norm_num)
      simp [main, h, not_lt.mpr g0, not_lt.mpr g1, not_lt.mpr g2, setup_diag]
    · have h : inp.rWrite < 0 := hneg
      have g0 : 0 ≤ inp.rOpen := hfirst 0 (by norm_num)
      have g1 : 0 ≤ inp.rSpeed := hfirst 1 (by norm_num)
      have g2 : 0 ≤ inp.rParam := hfirst 2 (by norm_num)
      have g3 : 0 ≤ inp.rFlow := hfirst 3 (by norm_num)
      simp [main, h, not_lt.mpr g0, not_lt.mpr g1, not_lt.mpr g2, not_lt.mpr g3, setup_diag]
  · intro e he
    apply hall e
    rcases List.mem_append.mp he with h | h
    · exact List.mem_append_left _ (List.mem_of_mem_take h)
    · apply List.mem_append_right
      interval_cases k <;> simp [setup_diag] at h ⊢ <;> rcases h with h | h <;> simp [h]

/-- C9, at a concrete run: `SerialOpen` and `SerialSetSpeed` succeed, `SerialSetParam` returns
-1. -/
theorem main_setup_failure_witness :
    main param_failure_inputs
      = some (-1, [Event.SerialOpen PORT3, Event.SerialSetSpeed PORT3 2400,
          Event.SerialSetParam PORT3 0 8 1, Event.error Diag.SerialSetParam,
          Event.SerialClose PORT3]) :=
  (main_setup_failure param_failure_inputs 2 (by decide) (by decide) (by decide)).1

/-! ## Rounding -/

theorem bitLengthAux_spec : ∀ (fuel n : Nat), n ≤ fuel → n ≠ 0 →
    2 ^ bitLengthAux fuel n ≤ 2 * n ∧ n < 2 ^ bitLengthAux fuel n := by
  intro fuel
  induction fuel with
  | zero => intro n h hn; omega
  | succ f ih =>
    intro n h hn
    simp only [bitLengthAux, if_neg hn]
    by_cases h2 : n / 2 = 0
    · have h1 : n = 1 := by omega
      subst h1
      have : bitLengthAux f (1 / 2) = 0 := by
        cases f <;> simp [bitLengthAux]
      rw [this]; norm_num
    · obtain ⟨a, b⟩ := ih (n / 2) (by omega) h2
      rw [pow_succ]
      constructor <;> omega

theorem bitLength_spec (n : Nat) (hn : n ≠ 0) :
    2 ^ bitLength n ≤ 2 * n ∧ n < 2 ^ bitLength n :=
  bitLengthAux_spec n n le_rfl hn

theorem abs_eq_natAbs_div_den (x : ℚ) : |x| = (x.num.natAbs : ℚ) / (x.den : ℚ) := by
  have h1 : (x.num.natAbs : ℚ) = |(x.num : ℚ)| := by
    rw [Nat.cast_natAbs, Int.cast_abs]
  rw [h1]
  conv_lhs => rw [← Rat.num_div_den x]
  rw [abs_div, Nat.abs_cast]

/-- The exponent `ilog2 x` brackets `|x|` between two consecutive powers of two. -/
theorem ilog2_spec (x : ℚ) (hx : x ≠ 0) :
    (2 : ℚ) ^ ilog2 x ≤ |x| ∧ |x| < (2 : ℚ) ^ (ilog2 x + 1) := by
  have hnum : x.num.natAbs ≠ 0 := by
    simpa [Int.natAbs_eq_zero] using hx
  have hden : x.den ≠ 0 := x.den_nz
  obtain ⟨a1, a2⟩ := bitLength_spec _ hnum
  obtain ⟨d1, d2⟩ := bitLength_spec _ hden
  have habs := abs_eq_natAbs_div_den x
  have hdpos : (0 : ℚ) < (x.den : ℚ) := by exact_mod_cast Nat.pos_of_ne_zero hden
  have a1q : (2 : ℚ) ^ bitLength x.num.natAbs ≤ 2 * (x.num.natAbs : ℚ) := by exact_mod_cast a1
  have a2q : (x.num.natAbs : ℚ) < (2 : ℚ) ^ bitLength x.num.natAbs := by exact_mod_cast a2
  have d1q : (2 : ℚ) ^ bitLength x.den ≤ 2 * (x.den : ℚ) := by exact_mod_cast d1
  have d2q : (x.den : ℚ) < (2 : ℚ) ^ bitLength x.den := by exact_mod_cast d2
  have hpd : (0 : ℚ) < (2 : ℚ) ^ bitLength x.den := by positivity
  have hz : ∀ e : ℤ, (2 : ℚ) ^ (e + 1) = 2 ^ e * 2 := fun e => by
    rw [zpow_add₀ (by norm_num : (2 : ℚ) ≠ 0), zpow_one]
  have hsub : (2 : ℚ) ^ ((bitLength x.num.natAbs : ℤ) - (bitLength x.den : ℤ))
      = (2 : ℚ) ^ bitLength x.num.natAbs / (2 : ℚ) ^ bitLength x.den := by
    rw [zpow_sub₀ (by norm_num : (2 : ℚ) ≠ 0), zpow_natCast, zpow_natCast]
  unfold ilog2
  split_ifs with h
  · refine ⟨h, ?_⟩
    rw [hz, hsub, habs, div_mul_eq_mul_div, div_lt_div_iff₀ hdpos hpd]
    nlinarith
  · constructor
    · have : (2 : ℚ) ^ ((bitLength x.num.natAbs : ℤ) - (bitLength x.den : ℤ) - 1) * 2
          = (2 : ℚ) ^ ((bitLength x.num.natAbs : ℤ) - (bitLength x.den : ℤ)) := by
        rw [← hz]; congr 1; ring
      have h3 : (2 : ℚ) ^ ((bitLength x.num.natAbs : ℤ) - (bitLength x.den : ℤ)) ≤ 2 * |x| := by
        rw [hsub, habs, div_le_iff₀ hpd, ← mul_div_assoc, div_mul_eq_mul_div,
          le_div_iff₀ hdpos]
        nlinarith
      linarith
    · have : (bitLength x.num.natAbs : ℤ) - (bitLength x.den : ℤ) - 1 + 1
          = (bitLength x.num.natAbs : ℤ) - (bitLength x.den : ℤ) := by ring
      rw [this]
      exact lt_of_not_le h

/-- When `|x| < 2 ^ m` the exponent of `x` is below `m`. -/
theorem ilog2_lt (x : ℚ) (hx : x ≠ 0) (m : ℤ) (h : |x| < (2 : ℚ) ^ m) : ilog2 x < m := by
  have h1 := (ilog2_spec x hx).1
  have h2 : (2 : ℚ) ^ ilog2 x < (2 : ℚ) ^ m := lt_of_le_of_lt h1 h
  exact (zpow_lt_zpow_iff_right₀ (by norm_num : (1 : ℚ) < 2)).mp h2

theorem roundHalfEven_ge_floor (x : ℚ) : ⌊x⌋ ≤ roundHalfEven x := by
  unfold roundHalfEven
  split_ifs <;> omega

theorem roundHalfEven_sub_le (x : ℚ) : |(roundHalfEven x : ℚ) - x| ≤ 1 / 2 := by
  have h1 := Int.floor_le x
  have h2 := Int.lt_floor_add_one x
  unfold roundHalfEven
  rw [abs_le]
  split_ifs with a b c
  · constructor <;> linarith
  · push_cast; constructor <;> linarith
  · have hb : x - ⌊x⌋ = 1 / 2 := le_antisymm (not_lt.mp b) (not_lt.mp a)
    constructor <;> linarith
  · have hb : x - ⌊x⌋ = 1 / 2 := le_antisymm (not_lt.mp b) (not_lt.mp a)
    push_cast; constructor <;> linarith

/-- An integer below `x` is below the rounding of `x`. -/
theorem le_roundHalfEven (x : ℚ) (k : ℤ) (h : (k : ℚ) ≤ x) : k ≤ roundHalfEven x :=
  le_trans (Int.le_floor.mpr h) (roundHalfEven_ge_floor x)

/-- An integer above `x` is above the rounding of `x`. -/
theorem roundHalfEven_le (x : ℚ) (k : ℤ) (h : x ≤ (k : ℚ)) : roundHalfEven x ≤ k := by
  have hf : ⌊x⌋ ≤ k := by
    have := Int.floor_le x
    exact_mod_cast (le_trans this h)
  by_cases hx : x - ⌊x⌋ < 1 / 2
  · unfold roundHalfEven
    rw [if_pos hx]; exact hf
  · have hlt : (⌊x⌋ : ℚ) < k := by
      have : (0 : ℚ) < x - ⌊x⌋ := by linarith
      linarith
    have hlt2 : ⌊x⌋ < k := by exact_mod_cast hlt
    unfold roundHalfEven
    split_ifs <;> omega

theorem fround_zero (p : ℕ) : fround p 0 = 0 := by
  unfold fround; simp

theorem fround_eq (p : ℕ) (x : ℚ) (hx : x ≠ 0) :
    fround p x = (roundHalfEven (x / 2 ^ (ilog2 x - ((p : ℤ) - 1))) : ℚ)
      * 2 ^ (ilog2 x - ((p : ℤ) - 1)) := by
  unfold fround; rw [if_neg hx]

/-- The rounding error is at most `|x| / 2 ^ p`. -/
theorem fround_error (p : ℕ) (x : ℚ) : |fround p x - x| ≤ |x| / 2 ^ p := by
  by_cases hx : x = 0
  · subst hx; simp [fround_zero]
  · rw [fround_eq p x hx]
    set e : ℤ := ilog2 x - ((p : ℤ) - 1) with he
    have hpos : (0 : ℚ) < 2 ^ e := by positivity
    have hr := roundHalfEven_sub_le (x / 2 ^ e)
    have h1 : (roundHalfEven (x / 2 ^ e) : ℚ) * 2 ^ e - x
        = ((roundHalfEven (x / 2 ^ e) : ℚ) - x / 2 ^ e) * 2 ^ e := by
      field_simp
    rw [h1, abs_mul, abs_of_pos hpos]
    have h2 : (2 : ℚ) ^ e * 2 ^ p = 2 ^ ilog2 x * 2 := by
      rw [← zpow_natCast (2 : ℚ) p, ← zpow_add₀ (by norm_num : (2 : ℚ) ≠ 0)]
      have : e + (p : ℤ) = ilog2 x + 1 := by rw [he]; ring
      rw [this, zpow_add₀ (by norm_num : (2 : ℚ) ≠ 0), zpow_one]
    have h3 := (ilog2_spec x hx).1
    have hp : (0 : ℚ) < 2 ^ p := by positivity
    rw [le_div_iff₀ hp]
    calc |(roundHalfEven (x / 2 ^ e) : ℚ) - x / 2 ^ e| * 2 ^ e * 2 ^ p
        ≤ 1 / 2 * 2 ^ e * 2 ^ p := by gcongr
      _ = 1 / 2 * (2 ^ ilog2 x * 2) := by rw [mul_assoc, h2]
      _ = 2 ^ ilog2 x := by ring
      _ ≤ |x| := h3

/-- A multiple `k * 2 ^ g` of a power of two that is at least the unit in the last place of
`x` and lies above `x`, lies above the rounding of `x`. -/
theorem fround_le_grid (p : ℕ) (x : ℚ) (hx : x ≠ 0) (k g : ℤ)
    (hg : ilog2 x - ((p : ℤ) - 1) ≤ g) (h : x ≤ (k : ℚ) * 2 ^ g) :
    fround p x ≤ (k : ℚ) * 2 ^ g := by
  rw [fround_eq p x hx]
  set e : ℤ := ilog2 x - ((p : ℤ) - 1) with he
  have hpos : (0 : ℚ) < 2 ^ e := by positivity
  obtain ⟨n, hn⟩ : ∃ n : ℕ, g - e = n := ⟨(g - e).toNat, by omega⟩
  have hge : (2 : ℚ) ^ g = ((2 ^ n : ℤ) : ℚ) * 2 ^ e := by
    have : g = (n : ℤ) + e := by omega
    rw [this, zpow_add₀ (by norm_num : (2 : ℚ) ≠ 0), zpow_natCast]
    push_cast; ring
  have hk : (k : ℚ) * 2 ^ g = ((k * 2 ^ n : ℤ) : ℚ) * 2 ^ e := by
    rw [hge]; push_cast; ring
  rw [hk] at h ⊢
  have h1 : x / 2 ^ e ≤ ((k * 2 ^ n : ℤ) : ℚ) := by
    rw [div_le_iff₀ hpos]; exact h
  have h2 := roundHalfEven_le _ _ h1
  have h3 : (roundHalfEven (x / 2 ^ e) : ℚ) ≤ ((k * 2 ^ n : ℤ) : ℚ) := by exact_mod_cast h2
  exact mul_le_mul_of_nonneg_right h3 hpos.le

/-- The same below `x`. -/
theorem grid_le_fround (p : ℕ) (x : ℚ) (hx : x ≠ 0) (k g : ℤ)
    (hg : ilog2 x - ((p : ℤ) - 1) ≤ g) (h : (k : ℚ) * 2 ^ g ≤ x) :
    (k : ℚ) * 2 ^ g ≤ fround p x := by
  rw [fround_eq p x hx]
  set e : ℤ := ilog2 x - ((p : ℤ) - 1) with he
  have hpos : (0 : ℚ) < 2 ^ e := by positivity
  obtain ⟨n, hn⟩ : ∃ n : ℕ, g - e = n := ⟨(g - e).toNat, by omega⟩
  have hge : (2 : ℚ) ^ g = ((2 ^ n : ℤ) : ℚ) * 2 ^ e := by
    have : g = (n : ℤ) + e := by omega
    rw [this, zpow_add₀ (by norm_num : (2 : ℚ) ≠ 0), zpow_natCast]
    push_cast; ring
  have hk : (k : ℚ) * 2 ^ g = ((k * 2 ^ n : ℤ) : ℚ) * 2 ^ e := by
    rw [hge]; push_cast; ring
  rw [hk] at h ⊢
  have h1 : ((k * 2 ^ n : ℤ) : ℚ) ≤ x / 2 ^ e := by
    rw [le_div_iff₀ hpos]; exact h
  have h2 := le_roundHalfEven _ _ h1
  have h3 : ((k * 2 ^ n : ℤ) : ℚ) ≤ (roundHalfEven (x / 2 ^ e) : ℚ) := by exact_mod_cast h2
  exact mul_le_mul_of_nonneg_right h3 hpos.le

/-- Integers of fewer than `p` bits are not changed by rounding to `p` bits. -/
theorem fround_int (p : ℕ) (n : ℤ) (h : |(n : ℚ)| < 2 ^ p) : fround p (n : ℚ) = n := by
  by_cases hn : (n : ℚ) = 0
  · rw [hn, fround_zero]
  · have h1 : ilog2 (n : ℚ) < (p : ℤ) := ilog2_lt _ hn p (by rw [zpow_natCast]; exact h)
    have hg : ilog2 (n : ℚ) - ((p : ℤ) - 1) ≤ 0 := by omega
    have a := fround_le_grid p (n : ℚ) hn n 0 hg (by simp)
    have b := grid_le_fround p (n : ℚ) hn n 0 hg (by simp)
    simp only [zpow_zero, mul_one] at a b
    exact le_antisymm a b

/-- Rounding a non-negative number gives a non-negative number. -/
theorem fround_nonneg (p : ℕ) (x : ℚ) (h : 0 ≤ x) : 0 ≤ fround p x := by
  by_cases hx : x = 0
  · rw [hx, fround_zero]
  · have := grid_le_fround p x hx 0 (ilog2 x - ((p : ℤ) - 1)) le_rfl (by simpa using h)
    simpa using this

/-- Rounding keeps a non-negative `x` between `x * (1 - 2 ^ -p)` and `x * (1 + 2 ^ -p)`. -/
theorem fround_bounds (p : ℕ) (x : ℚ) (h : 0 ≤ x) :
    x * (1 - 1 / 2 ^ p) ≤ fround p x ∧ fround p x ≤ x * (1 + 1 / 2 ^ p) := by
  have := fround_error p x
  rw [abs_of_nonneg h, abs_le] at this
  constructor
  · have := this.1; rw [mul_sub, mul_one, mul_one_div]; linarith
  · have := this.2; rw [mul_add, mul_one, mul_one_div]; linarith

/-! ## The direction -/

/-- The `double` constant `360.0/255.0`. -/
theorem scale_value :
    to_double (to_double 360 / to_double 255) = 6358023003346583 / 2 ^ 52 := by
  decide!

theorem truncate_of_nonneg (x : ℚ) (h : 0 ≤ x) : truncate x = ⌊x⌋ := by
  unfold truncate; rw [if_pos h]

/-- In `double` arithmetic the direction of a masked raw value `d` is the integer part of
`24 * d / 17`, that is of `d * 360 / 255`. -/
theorem direction_of_eq (d : ℤ) (h0 : 0 ≤ d) (h1 : d < 2 ^ 24) :
    direction_of d = 24 * d / 17 := by
  unfold direction_of
  have hd : to_double (d : ℚ) = d := by
    apply fround_int
    rw [abs_of_nonneg (by exact_mod_cast h0)]
    have : (d : ℚ) < 2 ^ 24 := by exact_mod_cast h1
    linarith [show (2 : ℚ) ^ 24 ≤ 2 ^ 53 by norm_num]
  rw [scale_value, hd]
  by_cases hz : d = 0
  · subst hz
    simp [to_double, fround_zero, truncate]
  have hdpos : (0 : ℚ) < d := by
    have : 0 < d := lt_of_le_of_ne h0 (Ne.symm hz)
    exact_mod_cast this
  have hdlt : (d : ℚ) < 2 ^ 24 := by exact_mod_cast h1
  set x : ℚ := 6358023003346583 / 2 ^ 52 * d with hx
  have hxpos : 0 < x := by rw [hx]; positivity
  have hxne : x ≠ 0 := ne_of_gt hxpos
  have hxlt : |x| < (2 : ℚ) ^ (25 : ℤ) := by
    rw [abs_of_pos hxpos, hx]
    norm_num
    nlinarith
  have hlog : ilog2 x < 25 := ilog2_lt x hxne 25 hxlt
  -- the integer part of 24 d / 17
  have hdiv := Int.ediv_add_emod (24 * d) 17
  have hmod0 := Int.emod_nonneg (24 * d) (by norm_num : (17 : ℤ) ≠ 0)
  have hmod1 := Int.emod_lt_of_pos (24 * d) (by norm_num : (0 : ℤ) < 17)
  set I : ℤ := 24 * d / 17 with hI
  have hIlo : (17 : ℚ) * I ≤ 24 * d := by
    have : 17 * I ≤ 24 * d := by omega
    exact_mod_cast this
  have hIhi : (24 : ℚ) * d ≤ 17 * I + 16 := by
    have : 24 * d ≤ 17 * I + 16 := by omega
    exact_mod_cast this
  have hInn : 0 ≤ I := by omega
  -- below
  have hlow : (I : ℚ) ≤ to_double x := by
    have := grid_le_fround 53 x hxne I 0 (by push_cast; omega) (by
      simp only [zpow_zero, mul_one]
      rw [hx]
      have : (24 : ℚ) / 17 * d ≤ 6358023003346583 / 2 ^ 52 * d := by
        apply mul_le_mul_of_nonneg_right _ hdpos.le
        norm_num
      linarith)
    simpa using this
  -- above
  have e : (2 : ℚ) ^ (-20 : ℤ) = 1 / 2 ^ 20 := by
    rw [zpow_neg, one_div]; norm_cast
  have hcast : (((I + 1) * 2 ^ 20 - 1 : ℤ) : ℚ) * (2 : ℚ) ^ (-20 : ℤ)
      = (I : ℚ) + 1 - 1 / 2 ^ 20 := by
    rw [e]; push_cast; ring
  have hhigh : to_double x ≤ (I : ℚ) + 1 - 1 / 2 ^ 20 := by
    rw [← hcast]
    apply fround_le_grid 53 x hxne _ (-20) (by push_cast; omega)
    rw [hcast, hx]
    have h17 : (17 : ℚ) * (6358023003346583 / 2 ^ 52 * d) = 24 * d + 7 * d / 2 ^ 52 := by
      norm_num
      ring
    have hsmall : (7 : ℚ) * d / 2 ^ 52 ≤ 7 * 2 ^ 24 / 2 ^ 52 := by
      apply div_le_div_of_nonneg_right _ (by positivity)
      linarith
    have : (7 : ℚ) * 2 ^ 24 / 2 ^ 52 + 17 / 2 ^ 20 ≤ 1 := by norm_num
    have h3 : (17 : ℚ) * (6358023003346583 / 2 ^ 52 * d)
        ≤ 17 * ((I : ℚ) + 1 - 1 / 2 ^ 20) := by
      rw [h17]
      have e2 : (17 : ℚ) * ((I : ℚ) + 1 - 1 / 2 ^ 20) = 17 * I + 17 - 17 / 2 ^ 20 := by ring
      rw [e2]
      linarith
    linarith
  have hnn : 0 ≤ to_double x := le_trans (by exact_mod_cast hInn) hlow
  rw [truncate_of_nonneg _ hnn]
  rw [Int.floor_eq_iff]
  refine ⟨hlow, lt_of_le_of_lt hhigh ?_⟩
  have : (0 : ℚ) < 1 / 2 ^ 20 := by positivity
  linarith

/-! ## Valid fields -/

theorem validDigit_encoded (b : Nat) (h : validDigit b) : ∃ d, d < 16 ∧ b = encodeNibble d := by
  unfold validDigit at h
  unfold encodeNibble
  rcases h with ⟨h1, h2⟩ | ⟨h1, h2⟩
  · exact ⟨b - 0x30, by omega, by rw [if_pos (by omega)]; omega⟩
  · exact ⟨b - 0x37, by omega, by rw [if_neg (by omega)]; omega⟩

/-- A field of four valid digits decodes to a value between 0 and 65535. -/
theorem get_value_valid (buf : List Nat) (off : Nat) (h : validField buf off) :
    ∃ v : Nat, v ≤ 65535 ∧ get_value buf off = (v : Int) := by
  obtain ⟨b3, hb3, hv3⟩ := h 0 (by norm_num)
  obtain ⟨b2, hb2, hv2⟩ := h 1 (by norm_num)
  obtain ⟨b1, hb1, hv1⟩ := h 2 (by norm_num)
  obtain ⟨b0, hb0, hv0⟩ := h 3 (by norm_num)
  obtain ⟨d3, hd3, rfl⟩ := validDigit_encoded b3 hv3
  obtain ⟨d2, hd2, rfl⟩ := validDigit_encoded b2 hv2
  obtain ⟨d1, hd1, rfl⟩ := validDigit_encoded b1 hv1
  obtain ⟨d0, hd0, rfl⟩ := validDigit_encoded b0 hv0
  refine ⟨d3 * 4096 + d2 * 256 + d1 * 16 + d0, by omega, ?_⟩
  exact get_value_nibbles buf off d3 d2 d1 d0 hd3 hd2 hd1 hd0
    (getD_of_getElem? _ _ _ hb3) (getD_of_getElem? _ _ _ hb2)
    (getD_of_getElem? _ _ _ hb1) (getD_of_getElem? _ _ _ hb0)

/-- The mask `& 0x00FFFFFF` leaves a value between 0 and 65535 as it is. -/
theorem int_and_mask (v : Nat) (h : v ≤ 65535) : int_and (v : Int) 0x00FFFFFF = (v : Int) := by
  have e : (0x00FFFFFF : Int) = ((2 ^ 24 - 1 : Nat) : Int) := by norm_num
  rw [e, int_and_natCast v _ (by omega) (by norm_num), Nat.and_pow_two_sub_one_eq_mod]
  congr 1
  omega

/-! ## The speed and the temperature -/

/-- The `double` constant `3.6`. -/
theorem double_3_6 : to_double (36 / 10) = 8106479329266893 / 2 ^ 51 := by
  decide!

theorem to_float_natCast (n : ℕ) (h : n < 2 ^ 24) : to_float (n : ℚ) = n := by
  have := fround_int 24 (n : ℤ) (by
    rw [abs_of_nonneg (by positivity)]
    exact_mod_cast h)
  simpa [to_float] using this

/-- The error of a rounding, from a bound on the number rounded. -/
theorem fround_error_le (p : ℕ) (x B : ℚ) (h : |x| ≤ B) : |fround p x - x| ≤ B / 2 ^ p :=
  le_trans (fround_error p x) (div_le_div_of_nonneg_right h (by positivity))

/-- The speed computed in `float` and `double` from a raw value between 0 and `2 ^ 24` is
`raw / 36` up to a relative error of `2 ^ -22`. -/
theorem speed_of_close (r : ℕ) (h : r < 2 ^ 24) :
    |speed_of (r : ℤ) - (r : ℚ) / 36| ≤ (r : ℚ) / 36 / 2 ^ 22 := by
  unfold speed_of
  have e10 : to_float 10 = 10 := by
    have := to_float_natCast 10 (by norm_num); simpa using this
  have er : to_float (((r : ℤ) : ℚ)) = r := by
    have := to_float_natCast r h; simpa using this
  rw [double_3_6, e10, er]
  have hr : (0 : ℚ) ≤ r := by positivity
  set c : ℚ := 8106479329266893 / 2 ^ 51 with hc
  have hcpos : 0 < c := by rw [hc]; positivity
  have b1 := fround_bounds 24 ((r : ℚ) / 10) (by positivity)
  have n1 : 0 ≤ to_float ((r : ℚ) / 10) := fround_nonneg 24 _ (by positivity)
  have n2 : 0 ≤ to_float ((r : ℚ) / 10) / c := div_nonneg n1 hcpos.le
  have b2 := fround_bounds 53 (to_float ((r : ℚ) / 10) / c) n2
  have n3 : 0 ≤ to_double (to_float ((r : ℚ) / 10) / c) := fround_nonneg 53 _ n2
  have b3 := fround_bounds 24 (to_double (to_float ((r : ℚ) / 10) / c)) n3
  change (r : ℚ) / 10 * (1 - 1 / 2 ^ 24) ≤ to_float ((r : ℚ) / 10) ∧
    to_float ((r : ℚ) / 10) ≤ (r : ℚ) / 10 * (1 + 1 / 2 ^ 24) at b1
  change to_float ((r : ℚ) / 10) / c * (1 - 1 / 2 ^ 53)
      ≤ to_double (to_float ((r : ℚ) / 10) / c) ∧
    to_double (to_float ((r : ℚ) / 10) / c)
      ≤ to_float ((r : ℚ) / 10) / c * (1 + 1 / 2 ^ 53) at b2
  change to_double (to_float ((r : ℚ) / 10) / c) * (1 - 1 / 2 ^ 24)
      ≤ to_float (to_double (to_float ((r : ℚ) / 10) / c)) ∧
    to_float (to_double (to_float ((r : ℚ) / 10) / c))
      ≤ to_double (to_float ((r : ℚ) / 10) / c) * (1 + 1 / 2 ^ 24) at b3
  set x1 := to_float ((r : ℚ) / 10) with hx1
  set x2 := to_double (x1 / c) with hx2
  set x3 := to_float x2 with hx3
  -- the chain of upper bounds
  have up : x3 ≤ (r : ℚ) * ((1 + 1 / 2 ^ 24) * (1 + 1 / 2 ^ 53) * (1 + 1 / 2 ^ 24) / (10 * c)) := by
    have s1 : x1 / c ≤ (r : ℚ) / 10 * (1 + 1 / 2 ^ 24) / c :=
      div_le_div_of_nonneg_right b1.2 hcpos.le
    have s2 : x2 ≤ (r : ℚ) / 10 * (1 + 1 / 2 ^ 24) / c * (1 + 1 / 2 ^ 53) :=
      le_trans b2.2 (mul_le_mul_of_nonneg_right s1 (by positivity))
    have s3 : x3 ≤ (r : ℚ) / 10 * (1 + 1 / 2 ^ 24) / c * (1 + 1 / 2 ^ 53) * (1 + 1 / 2 ^ 24) :=
      le_trans b3.2 (mul_le_mul_of_nonneg_right s2 (by positivity))
    calc x3 ≤ _ := s3
      _ = _ := by field_simp; ring
  have lo : (r : ℚ) * ((1 - 1 / 2 ^ 24) * (1 - 1 / 2 ^ 53) * (1 - 1 / 2 ^ 24) / (10 * c)) ≤ x3 := by
    have s1 : (r : ℚ) / 10 * (1 - 1 / 2 ^ 24) / c ≤ x1 / c :=
      div_le_div_of_nonneg_right b1.1 hcpos.le
    have s2 : (r : ℚ) / 10 * (1 - 1 / 2 ^ 24) / c * (1 - 1 / 2 ^ 53) ≤ x2 :=
      le_trans (mul_le_mul_of_nonneg_right s1 (by norm_num)) b2.1
    have s3 : (r : ℚ) / 10 * (1 - 1 / 2 ^ 24) / c * (1 - 1 / 2 ^ 53) * (1 - 1 / 2 ^ 24) ≤ x3 :=
      le_trans (mul_le_mul_of_nonneg_right s2 (by norm_num)) b3.1
    calc _ = (r : ℚ) / 10 * (1 - 1 / 2 ^ 24) / c * (1 - 1 / 2 ^ 53) * (1 - 1 / 2 ^ 24) := by
          field_simp; ring
      _ ≤ x3 := s3
  have kup : (1 + 1 / 2 ^ 24) * (1 + 1 / 2 ^ 53) * (1 + 1 / 2 ^ 24) / (10 * c)
      ≤ (1 + 1 / 2 ^ 22) / 36 := by
    rw [hc]; norm_num
  have klo : (1 - 1 / 2 ^ 22) / 36
      ≤ (1 - 1 / 2 ^ 24) * (1 - 1 / 2 ^ 53) * (1 - 1 / 2 ^ 24) / (10 * c) := by
    rw [hc]; norm_num
  have up2 := le_trans up (mul_le_mul_of_nonneg_left kup hr)
  have lo2 := le_trans (mul_le_mul_of_nonneg_left klo hr) lo
  rw [abs_le]
  constructor
  · have : (r : ℚ) * ((1 - 1 / 2 ^ 22) / 36) = (r : ℚ) / 36 - (r : ℚ) / 36 / 2 ^ 22 := by ring
    linarith
  · have : (r : ℚ) * ((1 + 1 / 2 ^ 22) / 36) = (r : ℚ) / 36 + (r : ℚ) / 36 / 2 ^ 22 := by ring
    linarith

/-- The temperature computed in `float` from a raw value between 0 and 65535 is within
0.001 of `((raw / 10) - 32) * 5 / 9`. -/
theorem temperature_of_close (r : ℕ) (h : r ≤ 65535) :
    |temperature_of (r : ℤ) - (((r : ℚ) / 10) - 32) * 5 / 9| ≤ 1 / 1000 := by
  unfold temperature_of
  have e10 : to_float 10 = 10 := by
    have := to_float_natCast 10 (by norm_num); simpa using this
  have e32 : to_float 32 = 32 := by
    have := to_float_natCast 32 (by norm_num); simpa using this
  have e5 : to_float 5 = 5 := by
    have := to_float_natCast 5 (by norm_num); simpa using this
  have e9 : to_float 9 = 9 := by
    have := to_float_natCast 9 (by norm_num); simpa using this
  have er : to_float (((r : ℤ) : ℚ)) = r := by
    have := to_float_natCast r (by omega); simpa using this
  rw [e10, e32, e5, e9, er]
  have hr0 : (0 : ℚ) ≤ r := by positivity
  have hr1 : (r : ℚ) ≤ 65535 := by exact_mod_cast h
  set a : ℚ := (r : ℚ) / 10 with ha
  have ha0 : 0 ≤ a := by rw [ha]; positivity
  have ha1 : a ≤ 65535 / 10 := by rw [ha]; linarith
  -- first rounding
  have g1 : |to_float a - a| ≤ (65535 / 10) / 2 ^ 24 :=
    fround_error_le 24 a _ (by rw [abs_of_nonneg ha0]; exact ha1)
  set t1 := to_float a with ht1
  rw [abs_le] at g1
  -- the subtraction
  have bs : |t1 - 32| ≤ 6522 := by
    rw [abs_le]; constructor <;> norm_num at g1 ⊢ <;> linarith
  have g2 : |to_float (t1 - 32) - (t1 - 32)| ≤ 6522 / 2 ^ 24 := fround_error_le 24 _ _ bs
  set t2 := to_float (t1 - 32) with ht2
  rw [abs_le] at g2 bs
  -- the multiplication
  have bm : |t2 * 5| ≤ 32615 := by
    rw [abs_le]; constructor <;> norm_num at g2 ⊢ <;> linarith
  have g3 : |to_float (t2 * 5) - t2 * 5| ≤ 32615 / 2 ^ 24 := fround_error_le 24 _ _ bm
  set t3 := to_float (t2 * 5) with ht3
  rw [abs_le] at g3 bm
  -- the division
  have bq : |t3 / 9| ≤ 3624 := by
    rw [abs_le]; constructor <;> norm_num at g3 ⊢ <;> linarith
  have g4 : |to_float (t3 / 9) - t3 / 9| ≤ 3624 / 2 ^ 24 := fround_error_le 24 _ _ bq
  set t4 := to_float (t3 / 9) with ht4
  rw [abs_le] at g4
  rw [abs_le]
  norm_num at g1 g2 g3 g4 ⊢
  constructor <;> linarith

/-- At 32 degrees Fahrenheit (raw value 320) the `float` computation gives exactly 0. -/
theorem temperature_of_320 : temperature_of 320 = 0 := by
  decide!

/-- The `float` speed for the raw value 100. -/
theorem speed_of_100 : speed_of 100 = 2912711 / 1048576 := by
  decide!

/-! ## The range of `get_value` on arbitrary bytes -/

theorem nat_left_le_or (a b : Nat) : a ≤ a ||| b := by
  have h : a &&& (a ||| b) = a := by
    apply Nat.eq_of_testBit_eq
    intro i
    rw [Nat.testBit_and, Nat.testBit_or]
    cases a.testBit i <;> simp
  calc a = a &&& (a ||| b) := h.symm
    _ ≤ a ||| b := Nat.and_le_right

theorem toU32_cast (x : Int) : ((toU32 x : Nat) : Int) = x % 4294967296 := by
  unfold toU32
  have : (2 : Int) ^ 32 = 4294967296 := by norm_num
  rw [this]
  exact Int.toNat_of_nonneg (Int.emod_nonneg _ (by norm_num))

/-- The pattern of an `int` between `-2 ^ 18` and `2 ^ 20`: below `2 ^ 20` when the value is
not negative, and with the fourteen top bits set otherwise. -/
theorem toU32_range (x : Int) (h1 : -262144 ≤ x) (h2 : x < 1048576) :
    toU32 x < 4294967296 ∧ ((0 ≤ x ∧ (toU32 x : Int) = x) ∨
      (x < 0 ∧ (toU32 x : Int) = x + 4294967296)) := by
  have h := toU32_cast x
  omega

theorem ofU32_cast (n : Nat) (h : n < 4294967296) :
    ofU32 n = if n < 2147483648 then (n : Int) else (n : Int) - 4294967296 := by
  unfold ofU32
  have e1 : (2 : Nat) ^ 32 = 4294967296 := by norm_num
  have e2 : (2 : Nat) ^ 31 = 2147483648 := by norm_num
  have e3 : (2 : Int) ^ 32 = 4294967296 := by norm_num
  rw [e1, e2, e3, Nat.mod_eq_of_lt h]

/-- The bitwise or of two `int` values between `-2 ^ 18` and `2 ^ 20` lies in the same range. -/
theorem int_or_range (a b : Int) (a1 : -262144 ≤ a) (a2 : a < 1048576) (b1 : -262144 ≤ b)
    (b2 : b < 1048576) : -262144 ≤ int_or a b ∧ int_or a b < 1048576 := by
  obtain ⟨pa, ha⟩ := toU32_range a a1 a2
  obtain ⟨pb, hb⟩ := toU32_range b b1 b2
  have hlt : toU32 a ||| toU32 b < 4294967296 := by
    have := @Nat.or_lt_two_pow (toU32 a) (toU32 b) 32 (by norm_num; exact pa)
      (by norm_num; exact pb)
    norm_num at this
    exact this
  have hl := nat_left_le_or (toU32 a) (toU32 b)
  have hr : toU32 b ≤ toU32 a ||| toU32 b := by
    rw [Nat.or_comm]; exact nat_left_le_or _ _
  unfold int_or
  rw [ofU32_cast _ hlt]
  rcases ha with ⟨ha0, hae⟩ | ⟨ha0, hae⟩
  · rcases hb with ⟨hb0, hbe⟩ | ⟨hb0, hbe⟩
    · have hsmall : toU32 a ||| toU32 b < 2 ^ 20 :=
        Nat.or_lt_two_pow (by norm_num; omega) (by norm_num; omega)
      norm_num at hsmall
      split_ifs <;> omega
    · split_ifs <;> omega
  · split_ifs <;> omega

/-- The shifted nibble of `get_value`: for a nibble between -48 and 200 and a shift of 0, 4, 8
or 12 the result is the product, without overflow. -/
theorem int_shl_nibble (n : Int) (i : Nat) (hi : i < 4) (h1 : -48 ≤ n) (h2 : n ≤ 200) :
    int_shl n ((3 - i) * 4) = n * 2 ^ ((3 - i) * 4) := by
  have h := toU32_cast n
  unfold int_shl
  rw [Nat.shiftLeft_eq]
  interval_cases i
  · unfold ofU32
    norm_num
    split_ifs <;> omega
  · unfold ofU32
    norm_num
    split_ifs <;> omega
  · unfold ofU32
    norm_num
    split_ifs <;> omega
  · unfold ofU32
    norm_num
    split_ifs <;> omega

/-- One step of `get_value` on a byte (a value of at most `0xFF`), from an accumulator between
`-2 ^ 18` and `2 ^ 20`: the accumulator stays in that range. -/
theorem get_value_step_any (buf : List Nat) (off i b : Nat) (ret : Int) (hi : i < 4)
    (hb : buf.getD (off + i) 0 = b) (hhi : b ≤ 0xFF) (r1 : -262144 ≤ ret)
    (r2 : ret < 1048576) :
    -262144 ≤ get_value_step buf off ret i ∧ get_value_step buf off ret i < 1048576 := by
  unfold get_value_step
  rw [hb]
  by_cases h : b > 0x39
  · rw [if_pos h, int_shl_nibble _ i hi (by omega) (by omega)]
    apply int_or_range _ _ r1 r2
    · interval_cases i <;> norm_num <;> omega
    · interval_cases i <;> norm_num <;> omega
  · rw [if_neg h, int_shl_nibble _ i hi (by omega) (by omega)]
    apply int_or_range _ _ r1 r2
    · interval_cases i <;> norm_num <;> omega
    · interval_cases i <;> norm_num <;> omega

/-- Whatever the four bytes of a field are, `get_value` returns a value between `-2 ^ 18` and
`2 ^ 20`. -/
theorem get_value_range (buf : List Nat) (off : Nat)
    (hbytes : ∀ i, i < 4 → ∃ b, buf[off + i]? = some b ∧ b ≤ 0xFF) :
    -262144 ≤ get_value buf off ∧ get_value buf off < 1048576 := by
  obtain ⟨b3, hb3, u3⟩ := hbytes 0 (by norm_num)
  obtain ⟨b2, hb2, u2⟩ := hbytes 1 (by norm_num)
  obtain ⟨b1, hb1, u1⟩ := hbytes 2 (by norm_num)
  obtain ⟨b0, hb0, u0⟩ := hbytes 3 (by norm_num)
  rw [get_value_unfold]
  have s3 := get_value_step_any buf off 0 b3 0 (by norm_num)
    (getD_of_getElem? _ _ _ hb3) u3 (by norm_num) (by norm_num)
  have s2 := get_value_step_any buf off 1 b2 _ (by norm_num)
    (getD_of_getElem? _ _ _ hb2) u2 s3.1 s3.2
  have s1 := get_value_step_any buf off 2 b1 _ (by norm_num)
    (getD_of_getElem? _ _ _ hb1) u1 s2.1 s2.2
  exact get_value_step_any buf off 3 b0 _ (by norm_num)
    (getD_of_getElem? _ _ _ hb0) u0 s1.1 s1.2

theorem to_float_intCast (n : ℤ) (h1 : -16777216 < n) (h2 : n < 16777216) :
    to_float (n : ℚ) = n := by
  apply fround_int
  rw [abs_lt]
  constructor
  · have : ((-16777216 : ℤ) : ℚ) < (n : ℚ) := by exact_mod_cast h1
    norm_num at this ⊢
    linarith
  · have : (n : ℚ) < ((16777216 : ℤ) : ℚ) := by exact_mod_cast h2
    norm_num at this ⊢
    linarith

/-- The temperature computed in `float` from a raw value between `-2 ^ 18` and `2 ^ 20` is
within 0.02 of `((raw / 10) - 32) * 5 / 9`. -/
theorem temperature_of_close_any (r : ℤ) (h1 : -262144 ≤ r) (h2 : r < 1048576) :
    |temperature_of r - (((r : ℚ) / 10) - 32) * 5 / 9| ≤ 1 / 50 := by
  unfold temperature_of
  have e10 : to_float 10 = 10 := by
    have := to_float_natCast 10 (by norm_num); simpa using this
  have e32 : to_float 32 = 32 := by
    have := to_float_natCast 32 (by norm_num); simpa using this
  have e5 : to_float 5 = 5 := by
    have := to_float_natCast 5 (by norm_num); simpa using this
  have e9 : to_float 9 = 9 := by
    have := to_float_natCast 9 (by norm_num); simpa using this
  have er : to_float (r : ℚ) = r := to_float_intCast r (by omega) (by omega)
  rw [e10, e32, e5, e9, er]
  have hr0 : (-262144 : ℚ) ≤ r := by exact_mod_cast h1
  have hr1 : (r : ℚ) < 1048576 := by exact_mod_cast h2
  set a : ℚ := (r : ℚ) / 10 with ha
  have ha1 : |a| ≤ 104858 := by
    rw [abs_le, ha]; constructor <;> linarith
  have g1 : |to_float a - a| ≤ 104858 / 2 ^ 24 := fround_error_le 24 a _ ha1
  set t1 := to_float a with ht1
  rw [abs_le] at g1 ha1
  have bs : |t1 - 32| ≤ 104891 := by
    rw [abs_le]; constructor <;> norm_num at g1 ⊢ <;> linarith
  have g2 : |to_float (t1 - 32) - (t1 - 32)| ≤ 104891 / 2 ^ 24 := fround_error_le 24 _ _ bs
  set t2 := to_float (t1 - 32) with ht2
  rw [abs_le] at g2 bs
  have bm : |t2 * 5| ≤ 524460 := by
    rw [abs_le]; constructor <;> norm_num at g2 ⊢ <;> linarith
  have g3 : |to_float (t2 * 5) - t2 * 5| ≤ 524460 / 2 ^ 24 := fround_error_le 24 _ _ bm
  set t3 := to_float (t2 * 5) with ht3
  rw [abs_le] at g3 bm
  have bq : |t3 / 9| ≤ 58274 := by
    rw [abs_le]; constructor <;> norm_num at g3 ⊢ <;> linarith
  have g4 : |to_float (t3 / 9) - t3 / 9| ≤ 58274 / 2 ^ 24 := fround_error_le 24 _ _ bq
  set t4 := to_float (t3 / 9) with ht4
  rw [abs_le] at g4
  rw [abs_le]
  norm_num at g1 g2 g3 g4 ⊢
  constructor <;> linarith

/-! ## The decoded reading -/

theorem validField_of_bytes (buf : List Nat) (off b3 b2 b1 b0 : Nat)
    (h3 : buf[off + 0]? = some b3) (h2 : buf[off + 1]? = some b2)
    (h1 : buf[off + 2]? = some b1) (h0 : buf[off + 3]? = some b0)
    (v3 : validDigit b3) (v2 : validDigit b2) (v1 : validDigit b1) (v0 : validDigit b0) :
    validField buf off := by
  intro i hi
  interval_cases i
  · exact ⟨b3, h3, v3⟩
  · exact ⟨b2, h2, v2⟩
  · exact ⟨b1, h1, v1⟩
  · exact ⟨b0, h0, v0⟩

/-- What the code computes for a direction field of valid digits: the mask leaves the raw
value `r = get_value(buf, 4)` as it is, `0 ≤ r ≤ 65535`, and the direction computed in
`double`, `(int)((360.0/255.0) * r)`, is the integer part of `24 * r / 17` (that is of
`r * 360 / 255`).  It lies between 0 and 360 exactly when `r ≤ 255`, with `r = 255` giving
exactly 360. -/
theorem direction_of_valid_field (buf : List Nat) (hvalid : validField buf DIRECTION_OFFSET) :
    int_and (get_value buf DIRECTION_OFFSET) 0x00FFFFFF = get_value buf DIRECTION_OFFSET ∧
    0 ≤ get_value buf DIRECTION_OFFSET ∧ get_value buf DIRECTION_OFFSET ≤ 65535 ∧
    direction_of (int_and (get_value buf DIRECTION_OFFSET) 0x00FFFFFF)
      = 24 * get_value buf DIRECTION_OFFSET / 17 ∧
    0 ≤ direction_of (int_and (get_value buf DIRECTION_OFFSET) 0x00FFFFFF) ∧
    (direction_of (int_and (get_value buf DIRECTION_OFFSET) 0x00FFFFFF) ≤ 360 ↔
      get_value buf DIRECTION_OFFSET ≤ 255) ∧
    (get_value buf DIRECTION_OFFSET = 255 →
      direction_of (int_and (get_value buf DIRECTION_OFFSET) 0x00FFFFFF) = 360) := by
  obtain ⟨v, hv, hg⟩ := get_value_valid buf DIRECTION_OFFSET hvalid
  rw [hg, int_and_mask v hv]
  have h0 : (0 : ℤ) ≤ (v : ℤ) := by positivity
  have h1 : (v : ℤ) ≤ 65535 := by exact_mod_cast hv
  rw [direction_of_eq (v : ℤ) h0 (by norm_num; omega)]
  refine ⟨rfl, h0, h1, rfl, by omega, by constructor <;> intro h <;> omega, ?_⟩
  intro h
  omega

/-- C4 (the code at the failing input). The direction field `"FF80"` consists of valid digits
and has `FF` in the high byte of its raw value `0xFF80`, the case the comment on the mask
names.  The mask `& 0x00FFFFFF` leaves `0xFF80` as it is, and the direction computed from it
is 92340, not a value between 0 and 360; with the high byte masked off (`& 0x00FF`) the raw
value is 128 and the direction 180. -/
theorem direction_mask_ineffective :
    validField ff_direction_frame DIRECTION_OFFSET ∧
      get_value ff_direction_frame DIRECTION_OFFSET = 0xFF80 ∧
      int_and (get_value ff_direction_frame DIRECTION_OFFSET) 0x00FFFFFF = 0xFF80 ∧
      direction_of (int_and (get_value ff_direction_frame DIRECTION_OFFSET) 0x00FFFFFF)
        = 92340 ∧
      ¬ ((92340 : Int) ≤ 360) ∧
      int_and (get_value ff_direction_frame DIRECTION_OFFSET) 0x00FF = 128 ∧
      direction_of 128 = 180 := by
  have hv : get_value ff_direction_frame DIRECTION_OFFSET = 0xFF80 := by decide
  have hm : int_and 0xFF80 0x00FFFFFF = 0xFF80 := by decide
  have hl : int_and 0xFF80 0x00FF = 128 := by decide
  refine ⟨?_, hv, ?_, ?_, by decide, ?_, ?_⟩
  · exact validField_of_bytes _ _ 0x46 0x46 0x38 0x30 (by decide) (by decide) (by decide)
      (by decide) (by decide) (by decide) (by decide) (by decide)
  · rw [hv, hm]
  · rw [hv, hm, direction_of_eq 0xFF80 (by norm_num) (by norm_num)]
    norm_num
  · rw [hv, hl]
  · rw [direction_of_eq 128 (by norm_num) (by norm_num)]
    norm_num

/-- C5 (counterexample). The speed field `"0064"` decodes to the raw value 100, and the speed
computed from it in `float` is 2912711 / 1048576 (2.7777777...), not 100 / 36 = 25 / 9. -/
theorem speed_not_exact :
    get_value (sample_frame 13 10) SPEED_OFFSET = 100 ∧
      speed_of (get_value (sample_frame 13 10) SPEED_OFFSET) = 2912711 / 1048576 ∧
      speed_of (get_value (sample_frame 13 10) SPEED_OFFSET) ≠ 100 / 36 := by
  have hv : get_value (sample_frame 13 10) SPEED_OFFSET = 100 := by decide
  rw [hv, speed_of_100]
  refine ⟨rfl, rfl, ?_⟩
  norm_num

/-- C5 (amended). The report of `main` carries `speed_of` of the raw value at offset 0 as the
speed and the same function of the raw value at offset 44 as the average speed.  For a speed
field of valid digits with raw value `r` (so `0 ≤ r ≤ 65535`) this `float` result is
`r / 10 / 3.6` up to rounding: it differs from `r / 36` by at most `r / 36 / 2 ^ 22`; the same
bound holds for the average speed when its field consists of valid digits.  The bytes `"0064"`
decode to the raw value 100 and to the speed 2912711 / 1048576, which is 25 / 9 minus
1 / 9437184 (about 2.78). -/
theorem speed_valid_field (buf : List Nat) (hspeed : validField buf SPEED_OFFSET) :
    (decode buf).getLast? = some (Event.report (speed_of (get_value buf SPEED_OFFSET))
      (direction_of (int_and (get_value buf DIRECTION_OFFSET) 0x00FFFFFF))
      (temperature_of (get_value buf TEMPERATURE_OFFSET))
      (speed_of (get_value buf AVGSPEED_OFFSET))) ∧
    0 ≤ get_value buf SPEED_OFFSET ∧ get_value buf SPEED_OFFSET ≤ 65535 ∧
    |speed_of (get_value buf SPEED_OFFSET) - (get_value buf SPEED_OFFSET : ℚ) / 36|
      ≤ (get_value buf SPEED_OFFSET : ℚ) / 36 / 2 ^ 22 ∧
    (validField buf AVGSPEED_OFFSET →
      0 ≤ get_value buf AVGSPEED_OFFSET ∧ get_value buf AVGSPEED_OFFSET ≤ 65535 ∧
      |speed_of (get_value buf AVGSPEED_OFFSET) - (get_value buf AVGSPEED_OFFSET : ℚ) / 36|
        ≤ (get_value buf AVGSPEED_OFFSET : ℚ) / 36 / 2 ^ 22) ∧
    get_value [0x30, 0x30, 0x36, 0x34] 0 = 100 ∧
    speed_of 100 = 2912711 / 1048576 ∧
    (25 : ℚ) / 9 - 2912711 / 1048576 = 1 / 9437184 := by
  refine ⟨rfl, ?_⟩
  obtain ⟨v, hv, hg⟩ := get_value_valid buf SPEED_OFFSET hspeed
  have b1 := speed_of_close v (by omega)
  refine ⟨?_, ?_, ?_, ?_, by decide, speed_of_100, by norm_num⟩
  · rw [hg]; positivity
  · rw [hg]; exact_mod_cast hv
  · rw [hg]; simpa using b1
  · intro havg
    obtain ⟨w, hw, hk⟩ := get_value_valid buf AVGSPEED_OFFSET havg
    have b2 := speed_of_close w (by omega)
    rw [hk]
    exact ⟨by positivity, by exact_mod_cast hw, by simpa using b2⟩

/-- C5 (amended), at a concrete frame: `sample_frame`, whose speed field is `"0064"`. -/
theorem speed_valid_field_witness :
    |speed_of (get_value (sample_frame 13 10) SPEED_OFFSET)
        - (get_value (sample_frame 13 10) SPEED_OFFSET : ℚ) / 36|
      ≤ (get_value (sample_frame 13 10) SPEED_OFFSET : ℚ) / 36 / 2 ^ 22 :=
  (speed_valid_field (sample_frame 13 10)
    (validField_of_bytes _ _ 0x30 0x30 0x36 0x34 (by decide) (by decide) (by decide)
      (by decide) (by decide) (by decide) (by decide) (by decide))).2.2.2.1

/-- The `float` temperature for the raw value 600. -/
theorem temperature_of_600 : temperature_of 600 = 8155591 / 524288 := by
  decide!

/-- C6 (counterexample). The temperature field `"0258"` decodes to the raw value 600 (60
degrees Fahrenheit), and the temperature computed from it in `float` is 8155591 / 524288
(15.5555553...), not ((600 / 10) - 32) * 5 / 9 = 140 / 9. -/
theorem temperature_not_exact :
    get_value mild_frame TEMPERATURE_OFFSET = 600 ∧
      temperature_of (get_value mild_frame TEMPERATURE_OFFSET) = 8155591 / 524288 ∧
      temperature_of (get_value mild_frame TEMPERATURE_OFFSET)
        ≠ (((600 : ℚ) / 10) - 32) * 5 / 9 := by
  have hv : get_value mild_frame TEMPERATURE_OFFSET = 600 := by decide
  rw [hv, temperature_of_600]
  refine ⟨rfl, rfl, ?_⟩
  norm_num

/-- C6 (amended). For every frame, whatever bytes its temperature field (bytes 8..11) holds,
with raw value `r = get_value(buf, 8)`, the report of `main` carries `temperature_of r`, and
this `float` result is `((r / 10) - 32) * 5 / 9` up to rounding: the two differ by at most
0.02, and by at most 0.001 when the field consists of valid digits.  The field `"0140"` (raw
value 320, 32 degrees Fahrenheit) gives exactly 0. -/
theorem temperature_any_field (buf : List Nat)
    (hbytes : ∀ i, i < 4 → ∃ b, buf[TEMPERATURE_OFFSET + i]? = some b ∧ b ≤ 0xFF) :
    (decode buf).getLast? = some (Event.report (speed_of (get_value buf SPEED_OFFSET))
      (direction_of (int_and (get_value buf DIRECTION_OFFSET) 0x00FFFFFF))
      (temperature_of (get_value buf TEMPERATURE_OFFSET))
      (speed_of (get_value buf AVGSPEED_OFFSET))) ∧
    |temperature_of (get_value buf TEMPERATURE_OFFSET)
        - (((get_value buf TEMPERATURE_OFFSET : ℚ) / 10) - 32) * 5 / 9| ≤ 1 / 50 ∧
    (validField buf TEMPERATURE_OFFSET →
      |temperature_of (get_value buf TEMPERATURE_OFFSET)
        - (((get_value buf TEMPERATURE_OFFSET : ℚ) / 10) - 32) * 5 / 9| ≤ 1 / 1000) ∧
    get_value [0x30, 0x31, 0x34, 0x30] 0 = 320 ∧
    temperature_of 320 = 0 := by
  obtain ⟨r1, r2⟩ := get_value_range buf TEMPERATURE_OFFSET hbytes
  refine ⟨rfl, temperature_of_close_any _ r1 r2, ?_, by decide, temperature_of_320⟩
  intro hvalid
  obtain ⟨v, hv, hg⟩ := get_value_valid buf TEMPERATURE_OFFSET hvalid
  have b := temperature_of_close v hv
  rw [hg]
  simpa using b

/-- C6 (amended), at a concrete frame: `garbled_temperature_frame`, whose temperature field
holds bytes that are not valid digits. -/
theorem temperature_any_field_witness :
    |temperature_of (get_value garbled_temperature_frame TEMPERATURE_OFFSET)
        - (((get_value garbled_temperature_frame TEMPERATURE_OFFSET : ℚ) / 10) - 32) * 5 / 9|
      ≤ 1 / 50 :=
  (temperature_any_field garbled_temperature_frame (by
    intro i hi
    interval_cases i
    · exact ⟨0xFF, by decide, by decide⟩
    · exact ⟨0x20, by decide, by decide⟩
    · exact ⟨0x3A, by decide, by decide⟩
    · exact ⟨0x30, by decide, by decide⟩)).2.1

/-! ## The serial library: calls on a port that is already open, or not open -/

theorem getD_of_getElem?_int (l : List Int) (i : Nat) (x : Int) (h : l[i]? = some x) :
    l.getD i (-1) = x := by
  rw [List.getD_eq_getElem?_getD, h]; rfl

theorem FindFD_unopened (s : SerialState) (p : Nat) (h : s.fd_map[p]? = some (-1)) :
    FindFD s p = -1 := by
  unfold FindFD
  rw [getD_of_getElem?_int _ _ _ h]
  rfl

/-- C7. Opening an already open port fails: when `fd_map[p]` (a port of the table, so `p` in
0..7) holds a value other than -1,
`SerialOpen(p)` returns `SERIAL_ERROR_OPEN` (-2) without any system call (no device is
opened), and `fd_map`, `oldtio` and `newtio` are left as they were, for every port. -/
theorem SerialOpen_already_open (s : SerialState) (p : Nat) (fd : Int) (os_fd : Int)
    (os_tio : Termios) (hfd : s.fd_map[p]? = some fd)
    (hopen : fd ≠ -1) :
    SerialOpen s p os_fd os_tio = { ret := -2, state := s, sys := [] } ∧
      SERIAL_ERROR_OPEN = -2 := by
  unfold SerialOpen
  rw [getD_of_getElem?_int _ _ _ hfd, if_pos hopen]
  exact ⟨rfl, rfl⟩

/-- C7, at a concrete state: port 2 was opened with descriptor 3 and is opened again. -/
theorem SerialOpen_already_open_witness :
    SerialOpen (SerialOpen initial_state 2 3 zero_termios).state 2 4 zero_termios
      = { ret := -2, state := (SerialOpen initial_state 2 3 zero_termios).state, sys := [] } ∧
      SERIAL_ERROR_OPEN = -2 :=
  SerialOpen_already_open (SerialOpen initial_state 2 3 zero_termios).state 2 3 4 zero_termios
    (by decide) (by decide)

/-- C8. Operations on a port that is not open: when `fd_map[p]` (a port of the table, so `p`
in 0..7) is -1, each of `SerialWrite`,
`SerialBlockRead`, `SerialNonBlockRead`, `SerialClose`, `SerialSetSpeed`, `SerialSetParam` and
`SerialFlowControl` returns `SERIAL_ERROR_FD` (-1) whatever its other arguments, makes no
system call, and leaves `fd_map`, `oldtio` and `newtio` as they were. -/
theorem serial_calls_unopened (s : SerialState) (p : Nat)
    (hfd : s.fd_map[p]? = some (-1)) :
    SERIAL_ERROR_FD = -1 ∧
    (∀ str len os_ret, SerialWrite s p str len os_ret = { ret := -1, state := s, sys := [] }) ∧
    (∀ len os_ret, SerialBlockRead s p len os_ret = { ret := -1, state := s, sys := [] }) ∧
    (∀ len os_ret, SerialNonBlockRead s p len os_ret = { ret := -1, state := s, sys := [] }) ∧
    SerialClose s p = { ret := -1, state := s, sys := [] } ∧
    (∀ speed, SerialSetSpeed s p speed = some { ret := -1, state := s, sys := [] }) ∧
    (∀ parity databits stopbit,
      SerialSetParam s p parity databits stopbit = { ret := -1, state := s, sys := [] }) ∧
    (∀ control, SerialFlowControl s p control = { ret := -1, state := s, sys := [] }) := by
  have h := FindFD_unopened s p hfd
  have hlt : FindFD s p < 0 := by rw [h]; decide
  refine ⟨rfl, ?_, ?_, ?_, ?_, ?_, ?_, ?_⟩
  · intro str len os_ret
    unfold SerialWrite
    rw [if_pos hlt, h]
  · intro len os_ret
    unfold SerialBlockRead
    rw [if_pos hlt, h]
  · intro len os_ret
    unfold SerialNonBlockRead
    rw [if_pos hlt, h]
  · unfold SerialClose
    rw [if_pos hlt, h]
  · intro speed
    unfold SerialSetSpeed
    rw [if_pos hlt, h]
  · intro parity databits stopbit
    unfold SerialSetParam
    rw [if_pos hlt, h]
  · intro control
    unfold SerialFlowControl
    rw [if_pos hlt, h]

/-- C8, at a concrete state: port 2 at program start, when no port has been opened. -/
theorem serial_calls_unopened_witness :
    SerialClose initial_state 2 = { ret := -1, state := initial_state, sys := [] } ∧
      SerialSetSpeed initial_state 2 2400
        = some { ret := -1, state := initial_state, sys := [] } :=
  ⟨(serial_calls_unopened initial_state 2 (by decide)).2.2.2.2.1,
    (serial_calls_unopened initial_state 2 (by decide)).2.2.2.2.2.1 2400⟩

/-! ## The sentinel wait -/

theorem os_read_one (b : Nat) (bs : List Nat) (rest : Line) :
    os_read (ReadEv.data (b :: bs) :: rest) 1
      = some (1, [b], if bs = [] then rest else ReadEv.data bs :: rest) := by
  simp [os_read]

theorem line_size_ge_bytes (line : Line) : (line_bytes line).length ≤ line_size line := by
  induction line with
  | nil => simp [line_bytes, line_size]
  | cons ev rest ih =>
    cases ev with
    | data bs => simp only [line_bytes, line_size, List.length_append]; omega
    | err => simp only [line_bytes, line_size]; omega

theorem all_reads_succeed_tail (ev : ReadEv) (rest : Line)
    (h : all_reads_succeed (ev :: rest)) : all_reads_succeed rest :=
  fun e he => h e (List.mem_cons_of_mem _ he)

/-- The loop of `get_data_header` on a line whose reads all succeed and whose bytes are
`pre ++ '!' :: post` with no `'!'` in `pre`: with enough iterations allowed it stops on the
line whose bytes are `post`. -/
theorem get_data_header_loop_spec (pre : List Nat) :
    ∀ (line : Line) (fuel stale : Nat) (post : List Nat),
      all_reads_succeed line → line_bytes line = pre ++ 0x21 :: post → 0x21 ∉ pre →
      pre.length + 1 ≤ fuel →
      ∃ rest, get_data_header_loop fuel stale line = some rest ∧ line_bytes rest = post ∧
        all_reads_succeed rest := by
  induction pre with
  | nil =>
    intro line fuel stale post hok hbytes _ hfuel
    obtain ⟨f, rfl⟩ : ∃ f, fuel = f + 1 := ⟨fuel - 1, by omega⟩
    cases line with
    | nil => simp [line_bytes] at hbytes
    | cons ev rest =>
      obtain ⟨b, bs, rfl⟩ := hok ev (List.mem_cons_self _ _)
      have hrest := all_reads_succeed_tail _ _ hok
      simp only [line_bytes, List.nil_append, List.cons_append, List.cons.injEq] at hbytes
      obtain ⟨hb, htail⟩ := hbytes
      subst hb
      refine ⟨if bs = [] then rest else ReadEv.data bs :: rest, ?_, ?_, ?_⟩
      · simp [get_data_header_loop, os_read_one, store]
      · by_cases hbs : bs = []
        · subst hbs; simpa using htail
        · simp only [if_neg hbs, line_bytes]; exact htail
      · by_cases hbs : bs = []
        · simp only [if_pos hbs]; exact hrest
        · simp only [if_neg hbs]
          intro e he
          rcases List.mem_cons.mp he with h | h
          · obtain ⟨c, cs, hcs⟩ := List.exists_cons_of_ne_nil hbs
            exact ⟨c, cs, by rw [h, hcs]⟩
          · exact hrest e h
  | cons p pre ih =>
    intro line fuel stale post hok hbytes hpre hfuel
    obtain ⟨f, rfl⟩ : ∃ f, fuel = f + 1 := ⟨fuel - 1, by simp at hfuel; omega⟩
    cases line with
    | nil => simp [line_bytes] at hbytes
    | cons ev rest =>
      obtain ⟨b, bs, rfl⟩ := hok ev (List.mem_cons_self _ _)
      have hrest := all_reads_succeed_tail _ _ hok
      simp only [line_bytes, List.cons_append, List.cons.injEq] at hbytes
      obtain ⟨hb, htail⟩ := hbytes
      subst hb
      have hne : b ≠ 0x21 := fun h => hpre (by rw [h]; exact List.mem_cons_self _ _)
      have hpre2 : 0x21 ∉ pre := fun h => hpre (List.mem_cons_of_mem _ h)
      have hok2 : all_reads_succeed (if bs = [] then rest else ReadEv.data bs :: rest) := by
        by_cases hbs : bs = []
        · simp only [if_pos hbs]; exact hrest
        · simp only [if_neg hbs]
          intro e he
          rcases List.mem_cons.mp he with h | h
          · obtain ⟨c, cs, hcs⟩ := List.exists_cons_of_ne_nil hbs
            exact ⟨c, cs, by rw [h, hcs]⟩
          · exact hrest e h
      have hbytes2 : line_bytes (if bs = [] then rest else ReadEv.data bs :: rest)
          = pre ++ 0x21 :: post := by
        by_cases hbs : bs = []
        · subst hbs; simpa using htail
        · simp only [if_neg hbs, line_bytes]; exact htail
      obtain ⟨r, h1, h2, h3⟩ := ih _ f b post hok2 hbytes2 hpre2 (by simp at hfuel; omega)
      refine ⟨r, ?_, h2, h3⟩
      simp only [get_data_header_loop, os_read_one, store]
      simpa [hne] using h1

/-- The bound on the iterations of `get_data_header` is never what stops it: any two bounds
above `line_size line` give the same result. -/
theorem get_data_header_loop_fuel : ∀ (fuel1 fuel2 b0 : Nat) (line : Line),
    line_size line < fuel1 → line_size line < fuel2 →
    get_data_header_loop fuel1 b0 line = get_data_header_loop fuel2 b0 line := by
  intro fuel1
  induction fuel1 with
  | zero => intro fuel2 b0 line h1 _; omega
  | succ f ih =>
    intro fuel2 b0 line h1 h2
    obtain ⟨g, rfl⟩ : ∃ g, fuel2 = g + 1 := ⟨fuel2 - 1, by omega⟩
    cases line with
    | nil => simp [get_data_header_loop, os_read]
    | cons ev rest =>
      cases ev with
      | err =>
        simp only [line_size] at h1 h2
        simp only [get_data_header_loop, os_read]
        rw [ih g _ rest (by omega) (by omega)]
      | data bs =>
        simp only [line_size] at h1 h2
        simp only [get_data_header_loop, os_read]
        have hlen : (List.drop 1 bs).length ≤ bs.length := by simp
        by_cases hbs : List.drop 1 bs = []
        · simp only [if_pos hbs]
          rw [ih g _ rest (by omega) (by omega)]
        · simp only [if_neg hbs]
          have hpos : bs.length ≠ 0 := by
            intro h0
            apply hbs
            rw [List.length_eq_zero.mp h0]; rfl
          have hlen2 : (List.drop 1 bs).length = bs.length - 1 := by simp
          rw [ih g _ (ReadEv.data (List.drop 1 bs) :: rest)
            (by simp only [line_size]; omega) (by simp only [line_size]; omega)]

/-- One call of `get_data_header` on such a line. -/
theorem get_data_header_spec (stale : Nat) (line : Line) (pre post : List Nat)
    (hok : all_reads_succeed line) (hbytes : line_bytes line = pre ++ 0x21 :: post)
    (hpre : 0x21 ∉ pre) :
    ∃ rest, get_data_header stale line = some rest ∧ line_bytes rest = post ∧
      all_reads_succeed rest := by
  apply get_data_header_loop_spec pre line _ stale post hok hbytes hpre
  have := line_size_ge_bytes line
  rw [hbytes] at this
  simp at this
  omega

/-- C10. Sentinel wait: on a line whose 1-byte reads all succeed and whose bytes are
`pre ++ '!' :: post` with no `'!'` in `pre`, `get_data_header` returns, and the bytes left on
the line are exactly `post`: it has consumed the bytes up to and including the first `'!'` and
nothing after it.  A second call on what is left, when the bytes left are
`mid ++ '!' :: post2` with no `'!'` in `mid`, returns with exactly `post2` left: the line is
positioned just after the second `'!'`. -/
theorem get_data_header_sentinel (stale1 stale2 : Nat) (line : Line) (pre post : List Nat)
    (hok : all_reads_succeed line) (hbytes : line_bytes line = pre ++ 0x21 :: post)
    (hpre : 0x21 ∉ pre) :
    ∃ rest, get_data_header stale1 line = some rest ∧ line_bytes rest = post ∧
      ∀ mid post2, post = mid ++ 0x21 :: post2 → 0x21 ∉ mid →
        ∃ rest2, get_data_header stale2 rest = some rest2 ∧ line_bytes rest2 = post2 := by
  obtain ⟨rest, h1, h2, h3⟩ := get_data_header_spec stale1 line pre post hok hbytes hpre
  refine ⟨rest, h1, h2, ?_⟩
  intro mid post2 hpost hmid
  obtain ⟨rest2, k1, k2, _⟩ :=
    get_data_header_spec stale2 rest mid post2 h3 (by rw [h2, hpost]) hmid
  exact ⟨rest2, k1, k2⟩

/-- C10, at a concrete line: the bytes `7, '!', 8, 9, '!', 5, 6` arriving in two chunks. -/
theorem get_data_header_sentinel_witness :
    ∃ rest, get_data_header 0 [ReadEv.data [7, 0x21, 8], ReadEv.data [9, 0x21, 5, 6]]
        = some rest ∧ line_bytes rest = [8, 9, 0x21, 5, 6] ∧
      ∀ mid post2, [8, 9, 0x21, 5, 6] = mid ++ 0x21 :: post2 → 0x21 ∉ mid →
        ∃ rest2, get_data_header 0x21 rest = some rest2 ∧ line_bytes rest2 = post2 :=
  get_data_header_sentinel 0 0x21 [ReadEv.data [7, 0x21, 8], ReadEv.data [9, 0x21, 5, 6]]
    [7] [8, 9, 0x21, 5, 6]
    (by
      intro ev hev
      simp at hev
      rcases hev with h | h
      · exact ⟨7, [0x21, 8], h⟩
      · exact ⟨9, [0x21, 5, 6], h⟩)
    (by simp [line_bytes]) (by simp)

/-! ## The range of `get_value` and the direction mask -/

/-- One step of `get_value` on a byte between `0x30` and `0xFF`, from a non-negative
accumulator below `2 ^ 20`: the nibble is between 0 and 200 and the accumulator stays
non-negative and below `2 ^ 20`. -/
theorem get_value_step_range (buf : List Nat) (off i b r : Nat) (hi : i < 4)
    (hb : buf.getD (off + i) 0 = b) (hlo : 0x30 ≤ b) (hhi : b ≤ 0xFF) (hr : r < 2 ^ 20) :
    ∃ r2 : Nat, r2 < 2 ^ 20 ∧ get_value_step buf off (r : Int) i = (r2 : Int) := by
  have hs : (3 - i) * 4 ≤ 12 := by omega
  have hpow : 2 ^ ((3 - i) * 4) ≤ 2 ^ 12 := Nat.pow_le_pow_right (by norm_num) hs
  unfold get_value_step
  rw [hb]
  by_cases h : b > 0x39
  · rw [if_pos h]
    have e : ((b : Int) - 55) = ((b - 55 : Nat) : Int) := by omega
    have hn : (b - 55) * 2 ^ ((3 - i) * 4) < 2 ^ 20 := by
      calc (b - 55) * 2 ^ ((3 - i) * 4) ≤ 200 * 2 ^ 12 :=
            Nat.mul_le_mul (by omega) hpow
        _ < 2 ^ 20 := by norm_num
    rw [e, int_shl_natCast _ _ (by omega), int_or_natCast _ _ (by omega) (by omega)]
    exact ⟨_, Nat.or_lt_two_pow hr hn, rfl⟩
  · rw [if_neg h]
    have e : ((b : Int) - 48) = ((b - 48 : Nat) : Int) := by omega
    have hn : (b - 48) * 2 ^ ((3 - i) * 4) < 2 ^ 20 := by
      calc (b - 48) * 2 ^ ((3 - i) * 4) ≤ 200 * 2 ^ 12 :=
            Nat.mul_le_mul (by omega) hpow
        _ < 2 ^ 20 := by norm_num
    rw [e, int_shl_natCast _ _ (by omega), int_or_natCast _ _ (by omega) (by omega)]
    exact ⟨_, Nat.or_lt_two_pow hr hn, rfl⟩

/-- The mask `& 0x00FFFFFF` leaves a value between 0 and `2 ^ 24` as it is. -/
theorem int_and_mask_lt (v : Nat) (h : v < 2 ^ 24) :
    int_and (v : Int) 0x00FFFFFF = (v : Int) := by
  have e : (0x00FFFFFF : Int) = ((2 ^ 24 - 1 : Nat) : Int) := by norm_num
  rw [e, int_and_natCast v _ (by omega) (by norm_num), Nat.and_pow_two_sub_one_eq_mod]
  congr 1
  omega

/-- C14. The direction mask does nothing on fields without a byte below `0x30`: when the four
bytes of the field at `off` are all between `0x30` and `0xFF` (every valid digit is, and so
is the byte `0xFF`), `get_value buf off` is a value `v` with `0 ≤ v < 2 ^ 24`, and
`v & 0x00FFFFFF` is `v`; when the four bytes are valid digits, moreover `v ≤ 65535`. -/
theorem get_value_mask_noop (buf : List Nat) (off : Nat)
    (hbytes : ∀ i, i < 4 → ∃ b, buf[off + i]? = some b ∧ 0x30 ≤ b ∧ b ≤ 0xFF) :
    0 ≤ get_value buf off ∧ get_value buf off < 2 ^ 24 ∧
      int_and (get_value buf off) 0x00FFFFFF = get_value buf off ∧
      (validField buf off → get_value buf off ≤ 65535) := by
  obtain ⟨b3, hb3, l3, u3⟩ := hbytes 0 (by norm_num)
  obtain ⟨b2, hb2, l2, u2⟩ := hbytes 1 (by norm_num)
  obtain ⟨b1, hb1, l1, u1⟩ := hbytes 2 (by norm_num)
  obtain ⟨b0, hb0, l0, u0⟩ := hbytes 3 (by norm_num)
  obtain ⟨r3, hr3, e3⟩ := get_value_step_range buf off 0 b3 0 (by norm_num)
    (getD_of_getElem? _ _ _ hb3) l3 u3 (by norm_num)
  obtain ⟨r2, hr2, e2⟩ := get_value_step_range buf off 1 b2 r3 (by norm_num)
    (getD_of_getElem? _ _ _ hb2) l2 u2 hr3
  obtain ⟨r1, hr1, e1⟩ := get_value_step_range buf off 2 b1 r2 (by norm_num)
    (getD_of_getElem? _ _ _ hb1) l1 u1 hr2
  obtain ⟨r0, hr0, e0⟩ := get_value_step_range buf off 3 b0 r1 (by norm_num)
    (getD_of_getElem? _ _ _ hb0) l0 u0 hr1
  have hval : get_value buf off = (r0 : Int) := by
    rw [get_value_unfold]
    have z : (0 : Int) = ((0 : Nat) : Int) := rfl
    rw [z, e3, e2, e1, e0]
  rw [hval]
  refine ⟨by positivity, ?_, int_and_mask_lt r0 (by omega), ?_⟩
  · have : r0 < 2 ^ 24 := by omega
    exact_mod_cast this
  · intro hv
    obtain ⟨v, hv1, hv2⟩ := get_value_valid buf off hv
    rw [← hval, hv2]
    exact_mod_cast hv1

/-- C14, at a concrete field: the first byte of the direction field is `0xFF`, the others are
`"080"`. -/
theorem get_value_mask_noop_witness :
    0 ≤ get_value [0xFF, 0x30, 0x38, 0x30] 0 ∧ get_value [0xFF, 0x30, 0x38, 0x30] 0 < 2 ^ 24 ∧
      int_and (get_value [0xFF, 0x30, 0x38, 0x30] 0) 0x00FFFFFF
        = get_value [0xFF, 0x30, 0x38, 0x30] 0 ∧
      (validField [0xFF, 0x30, 0x38, 0x30] 0 → get_value [0xFF, 0x30, 0x38, 0x30] 0 ≤ 65535) :=
  get_value_mask_noop [0xFF, 0x30, 0x38, 0x30] 0 (by
    intro i hi
    interval_cases i
    · exact ⟨0xFF, by decide, by decide, by decide⟩
    · exact ⟨0x30, by decide, by decide, by decide⟩
    · exact ⟨0x38, by decide, by decide, by decide⟩
    · exact ⟨0x30, by decide, by decide, by decide⟩)

/-! ## The rate table of `SerialSetSpeed` -/

/-- A requested speed of at most 50 stops the loop of `SerialSetSpeed` at once, at its
starting index 1. -/
theorem speed_index_low (speed : Nat) (h : speed ≤ 50) : speed_index speed = 1 := by
  unfold speed_index
  have : speed_table1.getD 1 0 ≥ speed := by
    show 50 ≥ speed
    exact h
  simp only [speed_loop, if_pos (by norm_num : 1 < 23), if_pos this]

/-- The loop of `SerialSetSpeed` from index `i` on, when it is allowed to run to the end of the
table: it stops at an index `j` between `i` and 23, at a table entry that is at least the
requested speed when `j < 23`, and every entry it went past is below the requested speed. -/
theorem speed_loop_spec (speed : Nat) : ∀ (fuel i : Nat), i ≤ 23 → 23 ≤ fuel + i →
    i ≤ speed_loop speed fuel i ∧ speed_loop speed fuel i ≤ 23 ∧
      (speed_loop speed fuel i < 23 → speed ≤ speed_table1.getD (speed_loop speed fuel i) 0) ∧
      (∀ k, i ≤ k → k < speed_loop speed fuel i → speed_table1.getD k 0 < speed) := by
  intro fuel
  induction fuel with
  | zero =>
    intro i h1 h2
    have : i = 23 := by omega
    subst this
    simp only [speed_loop]
    exact ⟨le_rfl, le_rfl, fun h => absurd h (by norm_num), fun k a b => by omega⟩
  | succ f ih =>
    intro i h1 h2
    by_cases hi : i < 23
    · by_cases ht : speed_table1.getD i 0 ≥ speed
      · simp only [speed_loop, if_pos hi, if_pos ht]
        exact ⟨le_rfl, h1, fun _ => ht, fun k a b => by omega⟩
      · simp only [speed_loop, if_pos hi, if_neg ht]
        obtain ⟨a, b, c, d⟩ := ih (i + 1) (by omega) (by omega)
        refine ⟨by omega, b, c, ?_⟩
        intro k hk1 hk2
        by_cases hk : k = i
        · subst hk; omega
        · exact d k (by omega) hk2
    · simp only [speed_loop, if_neg hi]
      exact ⟨le_rfl, h1, fun h => absurd h hi, fun k a b => by omega⟩

theorem speed_table1_le (j : Nat) (h : j < 23) : speed_table1.getD j 0 ≤ 921600 := by
  interval_cases j <;> decide

/-- The index after the loop of `SerialSetSpeed`: at least 1, at most 23, and 23 exactly when
the requested speed is above the last entry 921600 of the table. -/
theorem speed_index_range (speed : Nat) :
    1 ≤ speed_index speed ∧ speed_index speed ≤ 23 ∧
      (speed_index speed = 23 ↔ 921600 < speed) := by
  unfold speed_index
  obtain ⟨a, b, c, d⟩ := speed_loop_spec speed 23 1 (by norm_num) (by norm_num)
  refine ⟨a, b, ?_, ?_⟩
  · intro h
    have := d 22 (by norm_num) (by omega)
    have e : speed_table1.getD 22 0 = 921600 := by decide
    omega
  · intro h
    by_contra hne
    have hlt : speed_loop speed 23 1 < 23 := by omega
    have h1 := c hlt
    have h2 := speed_table1_le _ hlt
    omega

/-- On an open port, `SerialSetSpeed` with a requested speed of at most 50 stores the rate at
index 1 of `speed_table2`, `B50`, and returns `SERIAL_OK`. -/
theorem SerialSetSpeed_low (s : SerialState) (p speed : Nat) (hopen : 0 ≤ FindFD s p)
    (h : speed ≤ 50) :
    SerialSetSpeed s p speed
      = some { ret := SERIAL_OK,
               state := { s with newtio := s.newtio.set p (speed_termios s p 1) },
               sys := [Sys.tcsetattr (FindFD s p) (speed_termios s p 1)] } := by
  unfold SerialSetSpeed
  rw [if_neg (not_lt.mpr hopen), speed_index_low speed h]
  rfl

/-- C12 (the code at the failing inputs). On the open port 2, `SerialSetSpeed` with the
requested speeds 0 and 49, both below 50, stops its loop at index 1, not 0: it stores the rate
`B50` (the constant 1), not `B0` (the constant 0), as input and output rate, and returns
`SERIAL_OK`. -/
theorem SerialSetSpeed_below_50 :
    speed_index 0 = 1 ∧ speed_index 49 = 1 ∧ speed_table2[1]? = some 1 ∧
    speed_table2[0]? = some 0 ∧
    (SerialSetSpeed opened_state PORT3 0).map (fun o => o.ret) = some SERIAL_OK ∧
    (SerialSetSpeed opened_state PORT3 0).map
      (fun o => ((o.state.newtio.getD PORT3 zero_termios).c_ispeed,
        (o.state.newtio.getD PORT3 zero_termios).c_ospeed)) = some (1, 1) ∧
    (SerialSetSpeed opened_state PORT3 49).map
      (fun o => ((o.state.newtio.getD PORT3 zero_termios).c_ispeed,
        (o.state.newtio.getD PORT3 zero_termios).c_ospeed)) = some (1, 1) := by
  decide

/-- C13 (the code at the failing input). On the open port 2, `SerialSetSpeed` with the
requested speed 1000000, above every entry of `speed_table1`, leaves its loop with `i = 23`
and reads `speed_table2[23]`, one past the last of the 23 entries. -/
theorem SerialSetSpeed_index_past_end :
    speed_index 1000000 = 23 ∧ speed_table2.length = 23 ∧
    speed_table2[speed_index 1000000]? = none ∧
    0 ≤ FindFD opened_state PORT3 ∧
    SerialSetSpeed opened_state PORT3 1000000 = none := by
  decide

/-! ## The character size after `SerialSetParam` -/

theorem getD_set_self {α : Type} (l : List α) (i : Nat) (x d : α) (h : i < l.length) :
    (l.set i x).getD i d = x := by
  rw [List.getD_eq_getElem?_getD, List.getElem?_set_self h]
  rfl

theorem getD_set_other {α : Type} (l : List α) (i j : Nat) (x d : α) (h : i ≠ j) :
    (l.set i x).getD j d = l.getD j d := by
  rw [List.getD_eq_getElem?_getD, List.getD_eq_getElem?_getD, List.getElem?_set_ne h]

theorem has_cs8_set_bits (c m : Nat) (h : has_cs8 c) : has_cs8 (set_bits c m) := by
  constructor
  · show ((c ||| m) % 2 ^ 32).testBit 4 = true
    rw [Nat.testBit_mod_two_pow, Nat.testBit_or, h.1]
    rfl
  · show ((c ||| m) % 2 ^ 32).testBit 5 = true
    rw [Nat.testBit_mod_two_pow, Nat.testBit_or, h.2]
    rfl

theorem has_cs8_clear_bits (c m : Nat) (h : has_cs8 c)
    (h4 : (2 ^ 32 - 1 - m % 2 ^ 32).testBit 4 = true)
    (h5 : (2 ^ 32 - 1 - m % 2 ^ 32).testBit 5 = true) : has_cs8 (clear_bits c m) := by
  unfold has_cs8 clear_bits at *
  simp only [Nat.testBit_and, h.1, h.2, h4, h5]
  exact ⟨rfl, rfl⟩

theorem testBit_48 (i : Nat) : Nat.testBit 48 i = (decide (i = 4) || decide (i = 5)) := by
  by_cases h : i < 6
  · interval_cases i <;> decide
  · have h1 : Nat.testBit 48 i = false :=
      Nat.testBit_lt_two_pow (lt_of_lt_of_le (by norm_num : 48 < 2 ^ 6)
        (Nat.pow_le_pow_right (by norm_num) (by omega)))
    rw [h1]
    simp
    omega

theorem and_CSIZE_of_has_cs8 (c : Nat) (h : has_cs8 c) : c &&& CSIZE = CS8 := by
  show c &&& 48 = 48
  apply Nat.eq_of_testBit_eq
  intro i
  rw [Nat.testBit_and, testBit_48]
  by_cases h4 : i = 4
  · subst h4; simp [h.1]
  · by_cases h5 : i = 5
    · subst h5; simp [h.2]
    · simp [h4, h5]

theorem has_cs8_open_termios : has_cs8 open_termios.c_cflag := by
  unfold has_cs8
  decide

theorem has_cs8_flow (t t2 : Termios) (control : Int) (h : has_cs8 t.c_cflag)
    (ht : flow_termios t control = some t2) : has_cs8 t2.c_cflag := by
  unfold flow_termios at ht
  split_ifs at ht <;> simp only [Option.some.injEq] at ht <;> subst ht
  · exact has_cs8_clear_bits _ _ h (by decide) (by decide)
  · exact has_cs8_set_bits _ _ h
  · exact h

theorem has_cs8_parity (t : Termios) (parity : Int) (h : has_cs8 t.c_cflag) :
    has_cs8 (parity_termios t parity).c_cflag := by
  unfold parity_termios
  split_ifs
  · exact has_cs8_clear_bits _ _ h (by decide) (by decide)
  · exact has_cs8_set_bits _ _ (has_cs8_set_bits _ _ h)
  · exact has_cs8_clear_bits _ _ (has_cs8_set_bits _ _ h) (by decide) (by decide)
  · exact has_cs8_clear_bits _ _ (has_cs8_clear_bits _ _ h (by decide) (by decide))
      (by decide) (by decide)
  · exact has_cs8_clear_bits _ _ (has_cs8_set_bits _ _ h) (by decide) (by decide)
  · exact h

theorem has_cs8_databits (t : Termios) (databits : Int) (h : has_cs8 t.c_cflag) :
    has_cs8 (databits_termios t databits).c_cflag := by
  unfold databits_termios
  split_ifs
  · exact has_cs8_set_bits _ _ h
  · exact has_cs8_set_bits _ _ h
  · exact has_cs8_set_bits _ _ h
  · exact has_cs8_set_bits _ _ h
  · exact h

theorem has_cs8_stopbit (t : Termios) (stopbit : Int) (h : has_cs8 t.c_cflag) :
    has_cs8 (stopbit_termios t stopbit).c_cflag := by
  unfold stopbit_termios
  split_ifs
  · exact has_cs8_clear_bits _ _ h (by decide) (by decide)
  · exact has_cs8_set_bits _ _ h
  · exact h

/-- What holds in every reachable state: the tables have `MAX_PORT_NUM` entries, and the
stored settings of every open port have both character-size bits set. -/
theorem reachable_invariant (s : SerialState) (hs : Reachable s) :
    s.fd_map.length = MAX_PORT_NUM ∧ s.newtio.length = MAX_PORT_NUM ∧
      ∀ q, s.fd_map.getD q (-1) ≠ -1 → has_cs8 (s.newtio.getD q zero_termios).c_cflag := by
  induction hs with
  | start =>
    refine ⟨by decide, by decide, ?_⟩
    intro q hq
    exfalso
    apply hq
    unfold initial_state
    simp only [List.getD_eq_getElem?_getD, List.getElem?_replicate]
    split_ifs <;> rfl
  | afterOpen s port os_fd os_tio _ hp ih =>
    obtain ⟨l1, l2, inv⟩ := ih
    unfold SerialOpen
    split_ifs with a b
    · exact ⟨l1, l2, inv⟩
    · exact ⟨l1, l2, inv⟩
    · refine ⟨by simp [l1], by simp [l2], ?_⟩
      intro q hq
      by_cases hqp : port = q
      · subst hqp
        simp only []
        rw [getD_set_self _ _ _ _ (by rw [l2]; exact hp)]
        exact has_cs8_open_termios
      · simp only [] at hq ⊢
        rw [getD_set_other _ _ _ _ _ hqp] at hq ⊢
        exact inv q hq
  | afterClose s port _ hp ih =>
    obtain ⟨l1, l2, inv⟩ := ih
    unfold SerialClose
    split_ifs with a
    · exact ⟨l1, l2, inv⟩
    · refine ⟨by simp [l1], l2, ?_⟩
      intro q hq
      by_cases hqp : port = q
      · subst hqp
        exfalso
        apply hq
        simp only []
        exact getD_set_self _ _ _ _ (by rw [l1]; exact hp)
      · simp only [] at hq ⊢
        rw [getD_set_other _ _ _ _ _ hqp] at hq
        exact inv q hq
  | afterFlowControl s port control _ hp ih =>
    obtain ⟨l1, l2, inv⟩ := ih
    unfold SerialFlowControl
    split_ifs with a
    · exact ⟨l1, l2, inv⟩
    · cases hf : flow_termios (s.newtio.getD port zero_termios) control with
      | none => exact ⟨l1, l2, inv⟩
      | some t =>
        refine ⟨l1, by simp [l2], ?_⟩
        intro q hq
        simp only [] at hq ⊢
        by_cases hqp : port = q
        · subst hqp
          rw [getD_set_self _ _ _ _ (by rw [l2]; exact hp)]
          exact has_cs8_flow _ _ _ (inv port hq) hf
        · rw [getD_set_other _ _ _ _ _ hqp]
          exact inv q hq
  | afterSetSpeed s port speed o _ hp ho ih =>
    obtain ⟨l1, l2, inv⟩ := ih
    unfold SerialSetSpeed at ho
    split_ifs at ho with a
    · simp only [Option.some.injEq] at ho
      subst ho
      exact ⟨l1, l2, inv⟩
    · cases hb : speed_table2[speed_index speed]? with
      | none => rw [hb] at ho; simp at ho
      | some b =>
        rw [hb] at ho
        simp only [Option.some.injEq] at ho
        subst ho
        refine ⟨l1, by simp [l2], ?_⟩
        intro q hq
        simp only [] at hq ⊢
        by_cases hqp : port = q
        · subst hqp
          rw [getD_set_self _ _ _ _ (by rw [l2]; exact hp)]
          exact inv port hq
        · rw [getD_set_other _ _ _ _ _ hqp]
          exact inv q hq
  | afterSetParam s port parity databits stopbit _ hp ih =>
    obtain ⟨l1, l2, inv⟩ := ih
    unfold SerialSetParam
    split_ifs with a
    · exact ⟨l1, l2, inv⟩
    · refine ⟨l1, by simp [l2], ?_⟩
      intro q hq
      simp only [] at hq ⊢
      by_cases hqp : port = q
      · subst hqp
        rw [getD_set_self _ _ _ _ (by rw [l2]; exact hp)]
        exact has_cs8_stopbit _ _ (has_cs8_databits _ _ (has_cs8_parity _ _ (inv port hq)))
      · rw [getD_set_other _ _ _ _ _ hqp]
        exact inv q hq

/-- In every reachable state and for every open port, whatever `parity`, `databits` and
`stopbit` are, the character-size field of the settings `SerialSetParam` stores is `CS8`: the
function sets bits of the field and never clears one, and `SerialOpen` has set them all. -/
theorem char_size_after_SerialSetParam (s : SerialState) (hs : Reachable s) (p : Nat)
    (hp : p < MAX_PORT_NUM) (hopen : 0 ≤ FindFD s p) (parity databits stopbit : Int) :
    char_size (SerialSetParam s p parity databits stopbit).state p = CS8 := by
  have hr := Reachable.afterSetParam s p parity databits stopbit hs hp
  obtain ⟨_, _, inv⟩ := reachable_invariant _ hr
  apply and_CSIZE_of_has_cs8
  apply inv
  have hfd : (SerialSetParam s p parity databits stopbit).state.fd_map = s.fd_map := by
    unfold SerialSetParam
    split_ifs <;> rfl
  rw [hfd]
  intro h
  unfold FindFD at hopen
  rw [if_pos h] at hopen
  exact absurd hopen (by decide)

/-- C11 (the code at the failing inputs). On port 2 just opened by `SerialOpen`, whose stored
settings have `CS8`, `SerialSetParam` with `databits` 5, 6 or 7 returns `SERIAL_OK` and leaves
the character-size field at `CS8` (0o60): `c_cflag |= CS5` (or `CS6`, `CS7`) does not clear the
bits that are set, so the field is not `CS5` (0), `CS6` (0o20) or `CS7` (0o40). -/
theorem SerialSetParam_databits_ignored :
    0 ≤ FindFD opened_state PORT3 ∧ char_size opened_state PORT3 = CS8 ∧
    (SerialSetParam opened_state PORT3 0 7 1).ret = SERIAL_OK ∧
    char_size (SerialSetParam opened_state PORT3 0 5 1).state PORT3 = CS8 ∧
    char_size (SerialSetParam opened_state PORT3 0 6 1).state PORT3 = CS8 ∧
    char_size (SerialSetParam opened_state PORT3 0 7 1).state PORT3 = CS8 ∧
    CS8 ≠ CS5 ∧ CS8 ≠ CS6 ∧ CS8 ≠ CS7 := by
  decide

end Getwind
